import Mathlib

/-!
Verification development for the otto front end (package parser and the
regexp transpiler).  The Go sources are embedded shallowly: strings are
lists of bytes (Nat), runes are Int with -1 as the EOF sentinel, the
stateful scanners become explicit state-passing functions, and the
unbounded Go loops take a fuel argument; termination with the stated fuel
is proved from a decreasing measure (claim C10).
-/

namespace Otto

/-! ### UTF-8 decoding and encoding (Go unicode/utf8 semantics)

`utf8Decode` models Go utf8.DecodeRuneInString restricted to a byte list:
malformed input decodes to U+FFFD with width 1.  Go returns width 0 on an
empty string; the scanners never decode an empty suffix (they check
offset < length first), and we return width 1 there so that the width is
always positive. -/

def runeErrorChar : Int := 0xFFFD

def isCont (b : Nat) : Bool := 0x80 ≤ b && b < 0xC0

def utf8Decode : List Nat → Int × Nat
  | [] => (runeErrorChar, 1)
  | b0 :: rest =>
    if b0 < 0x80 then ((b0 : Int), 1)
    else if b0 < 0xC2 then (runeErrorChar, 1)
    else if b0 < 0xE0 then
      match rest with
      | b1 :: _ =>
        if isCont b1 then ((((b0 % 0x20) * 0x40 + b1 % 0x40 : Nat) : Int), 2)
        else (runeErrorChar, 1)
      | [] => (runeErrorChar, 1)
    else if b0 < 0xF0 then
      -- 3-byte forms; E0 excludes overlong encodings, ED excludes surrogates
      let lo := if b0 = 0xE0 then 0xA0 else 0x80
      let hi := if b0 = 0xED then 0xA0 else 0xC0
      match rest with
      | b1 :: b2 :: _ =>
        if lo ≤ b1 && b1 < hi && isCont b2 then
          ((((b0 % 0x10) * 0x1000 + (b1 % 0x40) * 0x40 + b2 % 0x40 : Nat) : Int), 3)
        else (runeErrorChar, 1)
      | _ => (runeErrorChar, 1)
    else if b0 < 0xF5 then
      -- 4-byte forms; F0 excludes overlong encodings, F4 caps at U+10FFFF
      let lo := if b0 = 0xF0 then 0x90 else 0x80
      let hi := if b0 = 0xF4 then 0x90 else 0xC0
      match rest with
      | b1 :: b2 :: b3 :: _ =>
        if lo ≤ b1 && b1 < hi && isCont b2 && isCont b3 then
          ((((b0 % 0x8) * 0x40000 + (b1 % 0x40) * 0x1000 +
            (b2 % 0x40) * 0x40 + b3 % 0x40 : Nat) : Int), 4)
        else (runeErrorChar, 1)
      | _ => (runeErrorChar, 1)
    else (runeErrorChar, 1)

/-- Go bytes.Buffer.WriteRune: encodes the rune in UTF-8, substituting
U+FFFD for an invalid rune. -/
def utf8Encode (r : Int) : List Nat :=
  if r < 0 then [0xEF, 0xBF, 0xBD]
  else
    let n := r.toNat
    if n < 0x80 then [n]
    else if n < 0x800 then [0xC0 + n / 0x40, 0x80 + n % 0x40]
    else if 0xD800 ≤ n ∧ n < 0xE000 then [0xEF, 0xBF, 0xBD]
    else if n < 0x10000 then
      [0xE0 + n / 0x1000, 0x80 + (n / 0x40) % 0x40, 0x80 + n % 0x40]
    else if n ≤ 0x10FFFF then
      [0xF0 + n / 0x40000, 0x80 + (n / 0x1000) % 0x40,
       0x80 + (n / 0x40) % 0x40, 0x80 + n % 0x40]
    else [0xEF, 0xBF, 0xBD]

theorem utf8Decode_width_pos (bs : List Nat) : 1 ≤ (utf8Decode bs).2 := by
  rcases bs with _ | ⟨b0, _ | ⟨b1, _ | ⟨b2, _ | ⟨b3, r⟩⟩⟩⟩ <;>
    simp only [utf8Decode] <;> (try split_ifs) <;> simp [runeErrorChar]

theorem utf8Decode_width_le (bs : List Nat) (h : bs ≠ []) :
    (utf8Decode bs).2 ≤ bs.length := by
  rcases bs with _ | ⟨b0, _ | ⟨b1, _ | ⟨b2, _ | ⟨b3, r⟩⟩⟩⟩
  · simp at h
  all_goals simp only [utf8Decode] <;> (try split_ifs) <;> simp +arith [runeErrorChar]

/-- Decoding an ASCII byte yields the byte itself with width 1. -/
theorem utf8Decode_ascii (b : Nat) (t : List Nat) (h : b < 0x80) :
    utf8Decode (b :: t) = ((b : Int), 1) := by
  unfold utf8Decode
  simp [h]

/-! ### Regexp transpiler state (src/parser/regexp.go)

Errors recorded by the transpiler are values built with fmt.Errorf; we
model each distinct message shape as a constructor carrying its format
arguments.  bytes.Buffer writes never fail in Go, so the dead
`if err != nil` branches after each write are not represented. -/

/-- Error messages of the regexp transpiler, in order of appearance in
regexp.go: RuneError (read), Unmatched right parenthesis (scan),
lookahead and unterminated group (scanGroup), unterminated character
class (scanBracket), the two backreference shapes and the illegal branch
(scanEscape). -/
inductive RErr where
  | runeError : RErr
  | unmatchedParen : RErr
  | lookahead (peek : List Nat) : RErr
  | unterminatedGroup : RErr
  | unterminatedClass : RErr
  | backrefSingle (value : Int) : RErr
  | backrefMulti (digits : List Nat) : RErr
  | illegalBranch : RErr
deriving DecidableEq

/-- The state of `_RegExp_parser` (regexp.go:10-22).  `str` is the input
as bytes, `chr` the current rune (-1 at EOF), `chrOffset` the byte offset
of the current rune, `offset` the byte offset after it, and `buffer` the
output bytes. -/
structure RegExpParser where
  str : List Nat
  length : Nat
  chr : Int
  chrOffset : Nat
  offset : Nat
  errors : List RErr
  invalid : Bool
  buffer : List Nat
deriving DecidableEq

/-- regexp.go:354-372 `read`: decode the next rune, recording a RuneError
diagnostic for a malformed byte, or set the EOF sentinel. -/
def read (s : RegExpParser) : RegExpParser :=
  if s.offset < s.length then
    let d := utf8Decode (s.str.drop s.offset)
    { s with
      chrOffset := s.offset
      offset := s.offset + d.2
      chr := d.1
      errors := if d.1 = runeErrorChar ∧ d.2 = 1 then s.errors ++ [.runeError] else s.errors }
  else
    { s with chrOffset := s.length, chr := -1 }

/-- regexp.go:344-352 `pass`: emit the current rune (unless at EOF) and
advance. -/
def pass (s : RegExpParser) : RegExpParser :=
  read (if s.chr ≠ -1 then { s with buffer := s.buffer ++ utf8Encode s.chr } else s)

/-- Modelled from the spec: the digit-value classification helper
(spec section 1 assumes character classification helpers are available;
the helper itself lives outside src/).  Decimal and hex digits map to
their value, anything else to 16. -/
def digitValue (chr : Int) : Nat :=
  if 48 ≤ chr ∧ chr ≤ 57 then (chr - 48).toNat
  else if 97 ≤ chr ∧ chr ≤ 102 then (chr - 97 + 10).toNat
  else if 65 ≤ chr ∧ chr ≤ 70 then (chr - 65 + 10).toNat
  else 16

/-- Modelled from the spec: the identifier-part classification helper
(spec section 1 assumes it available; it lives outside src/).  ASCII
follows the ECMAScript rule (dollar, underscore, backslash, letters,
digits); non-ASCII letter/digit classification is approximated by
treating every rune at or above 0x80 as identifier-part.  No claim in
this development depends on the non-ASCII branch. -/
def isIdentifierPart (chr : Int) : Bool :=
  chr = 36 || chr = 95 || chr = 92 ||
  (97 ≤ chr && chr ≤ 122) || (65 ≤ chr && chr ≤ 90) ||
  (48 ≤ chr && chr ≤ 57) || 0x80 ≤ chr

/-- Go int64 two's-complement wrap-around for the octal accumulator. -/
def wrap64 (v : Int) : Int := (v + 2 ^ 63) % 2 ^ 64 - 2 ^ 63

/-- Go strconv.AppendInt(_, v, 16): lowercase hex digits, a minus sign
for negative values, as bytes. -/
def goHexBytes (v : Int) : List Nat :=
  if v < 0 then 45 :: (Nat.toDigits 16 v.natAbs).map Char.toNat
  else (Nat.toDigits 16 v.toNat).map Char.toNat

/-- Go string slice `str[a:b]` as bytes. -/
def slice (l : List Nat) (a b : Nat) : List Nat := (l.take b).drop a

/-- The octal-digit loop of scanEscape (regexp.go:150-159): accumulate
base-8 digits into an int64, counting them, until a non-octal-digit rune
is current. -/
def octalLoop : Nat → Int → Nat → RegExpParser → Option (Int × Nat × RegExpParser)
  | 0, _, _, _ => none
  | fuel + 1, value, size, s =>
    let digit : Int := (digitValue s.chr : Int)
    if 8 ≤ digit then some (value, size, s)
    else octalLoop fuel (wrap64 (value * 8 + digit)) (size + 1) (read s)

/-- The decimal-digit loop of the backslash-8/9 case (regexp.go:185-194);
the digit count it maintains is unused afterwards, as in the source. -/
def dec89Loop : Nat → Nat → RegExpParser → Option (Nat × RegExpParser)
  | 0, _, _ => none
  | fuel + 1, size, s =>
    if 10 ≤ digitValue s.chr then some (size, s)
    else dec89Loop fuel (size + 1) (read s)

/-- The bounded hex-digit loop shared by the backslash-x and backslash-u
paths (regexp.go:292-303): consume `count` digits of the given base,
accumulating into a uint32; `none` in the result means some digit was
invalid (the goto-skip recovery). -/
def hexDigits : Nat → Nat → Nat → RegExpParser → RegExpParser × Option Nat
  | 0, _, value, s => (s, some value)
  | count + 1, base, value, s =>
    if base ≤ digitValue s.chr then (s, none)
    else hexDigits count base ((value * base + digitValue s.chr) % 2 ^ 32) (read s)

/-- regexp.go:141-342 `scanEscape`: translate one escape sequence, the
backslash having already been consumed.  The fuel feeds the two unbounded
digit loops; every other path is loop-free. -/
def scanEscape (fuel : Nat) (inClass : Bool) (s : RegExpParser) : Option RegExpParser :=
  let offset0 := s.chrOffset
  if 48 ≤ s.chr ∧ s.chr ≤ 55 then
    -- case 0-7: octal escape or single-digit backreference
    match octalLoop fuel 0 0 s with
    | none => none
    | some (value, size, s1) =>
      if size = 1 then
        let s2 := { s1 with buffer := s1.buffer ++ [92, (value.toNat % 256 + 48) % 256] }
        if value ≠ 0 then
          some { s2 with errors := s2.errors ++ [.backrefSingle value] }
        else some s2
      else
        -- tmp is the backslash-x prefix, with a padding 0 for small values
        let pre : List Nat := if 16 ≤ value then [92, 120] else [92, 120, 48]
        some { s1 with buffer := s1.buffer ++ pre ++ goHexBytes value }
  else if s.chr = 56 ∨ s.chr = 57 then
    -- case 8, 9: decimal backreference, preserved verbatim
    match dec89Loop fuel 0 s with
    | none => none
    | some (_, s1) =>
      let digits := slice s1.str offset0 s1.chrOffset
      some { s1 with
        buffer := s1.buffer ++ [92] ++ digits
        errors := s1.errors ++ [.backrefMulti digits] }
  else if s.chr = 120 ∨ s.chr = 117 then
    -- case x (2 hex digits), case u (4 hex digits)
    let cnt : Nat := if s.chr = 120 then 2 else 4
    let s1 := read s
    let valueOffset := s1.chrOffset
    match hexDigits cnt 16 0 s1 with
    | (s2, some _) =>
      if cnt = 4 then
        some { s2 with buffer := s2.buffer ++
          [92, 120, 123,
           s2.str.getD valueOffset 0, s2.str.getD (valueOffset + 1) 0,
           s2.str.getD (valueOffset + 2) 0, s2.str.getD (valueOffset + 3) 0,
           125] }
      else if cnt = 2 then
        some { s2 with buffer := s2.buffer ++
          [92, 120, s2.str.getD valueOffset 0, s2.str.getD (valueOffset + 1) 0] }
      else
        -- unreachable: the illegal-branch diagnostic then the skip recovery
        some { s2 with
          errors := s2.errors ++ [.illegalBranch]
          buffer := s2.buffer ++ slice s2.str offset0 s2.chrOffset }
    | (s2, none) =>
      -- goto skip: fall back to the raw source slice of the escape
      some { s2 with buffer := s2.buffer ++ slice s2.str offset0 s2.chrOffset }
  else if s.chr = 98 ∧ inClass then
    -- case b inside a class: backspace, emitted as backslash-x-0-8
    some (read { s with buffer := s.buffer ++ [92, 120, 48, 56] })
  else if s.chr = 98 ∨ s.chr = 66 ∨ s.chr = 100 ∨ s.chr = 68 ∨ s.chr = 115 ∨
          s.chr = 83 ∨ s.chr = 119 ∨ s.chr = 87 ∨ s.chr = 92 ∨ s.chr = 102 ∨
          s.chr = 110 ∨ s.chr = 114 ∨ s.chr = 116 ∨ s.chr = 118 then
    -- cases b (top level), B, d, D, s, S, w, W, backslash, f, n, r, t, v:
    -- pass the escape through
    some (pass { s with buffer := s.buffer ++ [92] })
  else if s.chr = 99 then
    -- case c: control escape
    let s1 := read s
    if 97 ≤ s1.chr ∧ s1.chr ≤ 122 then
      let value : Int := s1.chr - 97 + 1
      let pre : List Nat := if 16 ≤ value then [92, 120] else [92, 120, 48]
      some (read { s1 with buffer := s1.buffer ++ pre ++ goHexBytes value })
    else if 65 ≤ s1.chr ∧ s1.chr ≤ 90 then
      let value : Int := s1.chr - 65 + 1
      let pre : List Nat := if 16 ≤ value then [92, 120] else [92, 120, 48]
      some (read { s1 with buffer := s1.buffer ++ pre ++ goHexBytes value })
    else
      some { s1 with buffer := s1.buffer ++ [99] }
  else
    -- default: keep the backslash only for dollar or a non-identifier
    -- character, otherwise unescape for re2
    let s1 :=
      if s.chr = 36 ∨ ¬ isIdentifierPart s.chr then
        { s with buffer := s.buffer ++ [92] }
      else s
    some (pass s1)

/-- The loop of regexp.go:121-131 `scanBracket`: emit characters until a
right bracket or EOF, dispatching escapes. -/
def scanBracketLoop : Nat → RegExpParser → Option RegExpParser
  | 0, _ => none
  | fuel + 1, s =>
    if s.chr = -1 then some s
    else if s.chr = 93 then some s
    else if s.chr = 92 then
      (scanEscape fuel true (read s)).bind (scanBracketLoop fuel)
    else scanBracketLoop fuel (pass s)

/-- regexp.go:121-138 `scanBracket`: the loop, then either the
unterminated-class diagnostic (setting invalid) or the closing bracket. -/
def scanBracket (fuel : Nat) (s : RegExpParser) : Option RegExpParser :=
  (scanBracketLoop fuel s).map fun s1 =>
    if s1.chr ≠ 93 then
      { s1 with errors := s1.errors ++ [.unterminatedClass], invalid := true }
    else pass s1

/-- regexp.go:88-95: at a group opening, peek two bytes for a lookahead
marker and record the incompatibility diagnostic (the invalid flag is not
touched). -/
def lookaheadCheck (s : RegExpParser) : RegExpParser :=
  match s.str.drop s.chrOffset with
  | b0 :: b1 :: _ =>
    if b0 = 63 ∧ (b1 = 61 ∨ b1 = 33) then
      { s with errors := s.errors ++ [.lookahead [b0, b1]] }
    else s
  | _ => s

/-- regexp.go:112-117: after the group loop, either the unterminated-group
diagnostic (setting invalid) or the closing parenthesis. -/
def finishGroup (s1 : RegExpParser) : RegExpParser :=
  if s1.chr ≠ 41 then
    { s1 with errors := s1.errors ++ [.unterminatedGroup], invalid := true }
  else pass s1

/-- The loop of regexp.go:96-111 `scanGroup`.  The left-parenthesis branch
passes the character and runs the full nested scanGroup — written here as
the loop after `lookaheadCheck` followed by `finishGroup`, which is
exactly the body of `scanGroup` below, inlined to keep the recursion
structural in the fuel. -/
def scanGroupLoop : Nat → RegExpParser → Option RegExpParser
  | 0, _ => none
  | fuel + 1, s =>
    if s.chr = -1 ∨ s.chr = 41 then some s
    else if s.chr = 92 then
      (scanEscape fuel false (read s)).bind (scanGroupLoop fuel)
    else if s.chr = 40 then
      ((scanGroupLoop fuel (lookaheadCheck (pass s))).map finishGroup).bind
        (scanGroupLoop fuel)
    else if s.chr = 91 then
      (scanBracket fuel (pass s)).bind (scanGroupLoop fuel)
    else scanGroupLoop fuel (pass s)

/-- regexp.go:87-118 `scanGroup`: the lookahead peek, the body loop, then
the closing handling. -/
def scanGroup (fuel : Nat) (s : RegExpParser) : Option RegExpParser :=
  (scanGroupLoop fuel (lookaheadCheck s)).map finishGroup

/-- regexp.go:64-84 `scan`: the top-level dispatch loop. -/
def scanLoop : Nat → RegExpParser → Option RegExpParser
  | 0, _ => none
  | fuel + 1, s =>
    if s.chr = -1 then some s
    else if s.chr = 92 then
      (scanEscape fuel false (read s)).bind (scanLoop fuel)
    else if s.chr = 40 then
      (scanGroup fuel (pass s)).bind (scanLoop fuel)
    else if s.chr = 91 then
      (scanBracket fuel (pass s)).bind (scanLoop fuel)
    else if s.chr = 41 then
      scanLoop fuel
        (pass { s with errors := s.errors ++ [.unmatchedParen], invalid := true })
    else scanLoop fuel (pass s)

/-- The parser state built by TransformRegExp (regexp.go:45-49) before the
initial read; Go zero values fill chr, chrOffset, offset, errors, invalid. -/
def initRegExpParser (pattern : List Nat) : RegExpParser :=
  { str := pattern, length := pattern.length, chr := 0, chrOffset := 0,
    offset := 0, errors := [], invalid := false, buffer := [] }

/-- The scanner run performed by TransformRegExp: the initial read, then
scan, with fuel length + 2 (shown sufficient in claim C10). -/
def runScan (pattern : List Nat) : Option RegExpParser :=
  scanLoop (pattern.length + 2) (read (initRegExpParser pattern))

/-- regexp.go:37-62 `TransformRegExp`: empty input short-circuits;
otherwise run the scanner, take the first recorded error if any, and
return the empty string instead of the rewrite when the invalid flag is
set.  The outer Option is the fuel bound; claim C10 proves it is always
`some`. -/
def TransformRegExp (pattern : List Nat) : Option (List Nat × Option RErr) :=
  if pattern.isEmpty then some ([], none)
  else
    (runScan pattern).map fun s =>
      let err := s.errors.head?
      if s.invalid then ([], err) else (s.buffer, err)

/-! ### Termination measure and state evolution

`mu` bounds the number of reads left: `read` never increases it and
strictly decreases it while a current character is available, which is
what claim C10 calls strict advance of the reading offset. -/

def mu (s : RegExpParser) : Nat :=
  (s.length - s.offset) + (if s.chr = -1 then 0 else 1)

theorem mu_read_le (s : RegExpParser) : mu (read s) ≤ mu s := by
  have hw := utf8Decode_width_pos (s.str.drop s.offset)
  by_cases ho : s.offset < s.length
  · by_cases hc : (utf8Decode (s.str.drop s.offset)).1 = -1 <;>
      by_cases hc' : s.chr = -1 <;>
      simp [read, mu, ho, hc, hc'] <;> omega
  · by_cases hc' : s.chr = -1 <;> simp [read, mu, ho, hc']

theorem mu_read_lt (s : RegExpParser) (h : s.chr ≠ -1) : mu (read s) < mu s := by
  have hw := utf8Decode_width_pos (s.str.drop s.offset)
  by_cases ho : s.offset < s.length
  · by_cases hc : (utf8Decode (s.str.drop s.offset)).1 = -1 <;>
      simp [read, mu, ho, hc, h] <;> omega
  · simp [read, mu, ho, h]

theorem mu_buffer_update (s : RegExpParser) (b : List Nat) :
    mu { s with buffer := b } = mu s := rfl

theorem mu_errors_update (s : RegExpParser) (e : List RErr) :
    mu { s with errors := e } = mu s := rfl

theorem mu_pass_le (s : RegExpParser) : mu (pass s) ≤ mu s := by
  unfold pass
  by_cases h : s.chr = -1
  · rw [if_neg (by simp [h])]
    exact mu_read_le s
  · rw [if_pos h]
    exact mu_read_le { s with buffer := s.buffer ++ utf8Encode s.chr }

theorem mu_pass_lt (s : RegExpParser) (h : s.chr ≠ -1) : mu (pass s) < mu s := by
  unfold pass
  rw [if_pos h]
  exact mu_read_lt { s with buffer := s.buffer ++ utf8Encode s.chr } h

/-- The three diagnostics that accompany the invalid flag (unterminated
group, unterminated character class, unmatched right parenthesis). -/
def InvalidKind (e : RErr) : Prop :=
  e = .unmatchedParen ∨ e = .unterminatedGroup ∨ e = .unterminatedClass

/-- State evolution invariant of every scanner operation: the input is
untouched, diagnostics and output only grow, the invalid flag is never
reset, and whenever it is newly set one of the three invalidity
diagnostics has been recorded. -/
def Step (s s' : RegExpParser) : Prop :=
  s'.str = s.str ∧ s'.length = s.length ∧
  (∃ d, s'.errors = s.errors ++ d) ∧ (∃ d, s'.buffer = s.buffer ++ d) ∧
  (s.invalid = true → s'.invalid = true) ∧
  (s'.invalid = true → s.invalid = true ∨ ∃ e, e ∈ s'.errors ∧ InvalidKind e)

theorem step_refl (s : RegExpParser) : Step s s :=
  ⟨rfl, rfl, ⟨[], by simp⟩, ⟨[], by simp⟩, fun h => h, fun h => Or.inl h⟩

theorem step_trans {a b c : RegExpParser} (h1 : Step a b) (h2 : Step b c) :
    Step a c := by
  obtain ⟨s1, l1, ⟨d1, e1⟩, ⟨f1, g1⟩, i1, j1⟩ := h1
  obtain ⟨s2, l2, ⟨d2, e2⟩, ⟨f2, g2⟩, i2, j2⟩ := h2
  refine ⟨s2.trans s1, l2.trans l1, ⟨d1 ++ d2, by simp [e2, e1]⟩,
    ⟨f1 ++ f2, by simp [g2, g1]⟩, fun h => i2 (i1 h), fun h => ?_⟩
  rcases j2 h with h' | ⟨e, he, hk⟩
  · rcases j1 h' with h'' | ⟨e, he, hk⟩
    · exact Or.inl h''
    · exact Or.inr ⟨e, by rw [e2]; exact List.mem_append_left _ he, hk⟩
  · exact Or.inr ⟨e, he, hk⟩

theorem step_read (s : RegExpParser) : Step s (read s) := by
  unfold read
  split
  · refine ⟨rfl, rfl, ?_, ⟨[], by simp⟩, fun h => h, fun h => Or.inl h⟩
    dsimp only
    split
    · exact ⟨[.runeError], rfl⟩
    · exact ⟨[], by simp⟩
  · exact ⟨rfl, rfl, ⟨[], by simp⟩, ⟨[], by simp⟩, fun h => h, fun h => Or.inl h⟩

theorem step_buffer_append (s : RegExpParser) (d : List Nat) :
    Step s { s with buffer := s.buffer ++ d } :=
  ⟨rfl, rfl, ⟨[], by simp⟩, ⟨d, rfl⟩, fun h => h, fun h => Or.inl h⟩

theorem step_errors_append (s : RegExpParser) (d : List RErr) :
    Step s { s with errors := s.errors ++ d } :=
  ⟨rfl, rfl, ⟨d, rfl⟩, ⟨[], by simp⟩, fun h => h, fun h => Or.inl h⟩

theorem suffix_exists {α : Type} (a b : List α) : ∃ d, a ++ b = a ++ d :=
  ⟨b, rfl⟩

theorem suffix_exists2 {α : Type} (a b c : List α) : ∃ d, a ++ b ++ c = a ++ d :=
  ⟨b ++ c, by simp⟩

theorem step_of_parts {s s' : RegExpParser}
    (hstr : s'.str = s.str) (hlen : s'.length = s.length)
    (herr : ∃ d, s'.errors = s.errors ++ d)
    (hbuf : ∃ d, s'.buffer = s.buffer ++ d)
    (hinv : s'.invalid = s.invalid) : Step s s' :=
  ⟨hstr, hlen, herr, hbuf, fun h => by rw [hinv]; exact h,
   fun h => Or.inl (by rw [← hinv]; exact h)⟩

theorem step_to_read_buffer (s0 : RegExpParser) (b : List Nat)
    (h : ∃ d, b = s0.buffer ++ d) :
    Step s0 (read { s0 with buffer := b }) := by
  have h1 : Step s0 { s0 with buffer := b } := step_of_parts rfl rfl ⟨[], by simp⟩ h rfl
  exact step_trans h1 (step_read _)

theorem step_pass (s : RegExpParser) : Step s (pass s) := by
  unfold pass
  split
  · exact step_trans (step_buffer_append ..) (step_read _)
  · exact step_read s

theorem digitValue_eof : digitValue (-1) = 16 := by decide

theorem octalLoop_run : ∀ fuel (v : Int) (n : Nat) (s : RegExpParser), mu s < fuel →
    ∃ v' n' s', octalLoop fuel v n s = some (v', n', s') ∧ mu s' ≤ mu s ∧ Step s s' := by
  intro fuel
  induction fuel with
  | zero => intro v n s h; omega
  | succ f ih =>
    intro v n s h
    unfold octalLoop
    dsimp only
    split
    · exact ⟨v, n, s, rfl, le_refl _, step_refl s⟩
    · rename_i hd
      have hchr : s.chr ≠ -1 := by
        intro he
        rw [he, digitValue_eof] at hd
        omega
      have h1 := mu_read_lt s hchr
      obtain ⟨v', n', s', hr, hle, hst⟩ := ih _ _ (read s) (by omega)
      exact ⟨v', n', s', hr, by omega, step_trans (step_read s) hst⟩

theorem dec89Loop_run : ∀ fuel (n : Nat) (s : RegExpParser), mu s < fuel →
    ∃ n' s', dec89Loop fuel n s = some (n', s') ∧ mu s' ≤ mu s ∧ Step s s' := by
  intro fuel
  induction fuel with
  | zero => intro n s h; omega
  | succ f ih =>
    intro n s h
    unfold dec89Loop
    split
    · exact ⟨n, s, rfl, le_refl _, step_refl s⟩
    · rename_i hd
      have hchr : s.chr ≠ -1 := by
        intro he
        rw [he, digitValue_eof] at hd
        omega
      have h1 := mu_read_lt s hchr
      obtain ⟨n', s', hr, hle, hst⟩ := ih _ (read s) (by omega)
      exact ⟨n', s', hr, by omega, step_trans (step_read s) hst⟩

theorem hexDigits_run : ∀ count base (v : Nat) (s : RegExpParser),
    mu (hexDigits count base v s).1 ≤ mu s ∧ Step s (hexDigits count base v s).1 := by
  intro count
  induction count with
  | zero => intro base v s; exact ⟨le_refl _, step_refl s⟩
  | succ c ih =>
    intro base v s
    unfold hexDigits
    split
    · exact ⟨le_refl _, step_refl s⟩
    · obtain ⟨hle, hst⟩ := ih base _ (read s)
      exact ⟨le_trans hle (mu_read_le s), step_trans (step_read s) hst⟩

theorem scanEscape_run (fuel : Nat) (inClass : Bool) (s : RegExpParser)
    (h : mu s < fuel) :
    ∃ s', scanEscape fuel inClass s = some s' ∧ mu s' ≤ mu s ∧ Step s s' := by
  unfold scanEscape
  dsimp only
  split
  · -- octal case
    obtain ⟨v', n', s1, hr, hle, hst⟩ := octalLoop_run fuel 0 0 s h
    rw [hr]
    dsimp only
    split
    · split
      · exact ⟨_, rfl, by simpa using hle, step_trans hst
          (step_of_parts rfl rfl (by first | exact suffix_exists _ _ | exact suffix_exists2 _ _ _) (by first | exact suffix_exists _ _ | exact suffix_exists2 _ _ _) rfl)⟩
      · exact ⟨_, rfl, by simpa using hle, step_trans hst
          (step_of_parts rfl rfl ⟨[], by simp⟩ (by first | exact suffix_exists _ _ | exact suffix_exists2 _ _ _) rfl)⟩
    · exact ⟨_, rfl, by simpa using hle, step_trans hst
        (step_of_parts rfl rfl ⟨[], by simp⟩ (by first | exact suffix_exists _ _ | exact suffix_exists2 _ _ _) rfl)⟩
  · split
    · -- 8/9 case
      obtain ⟨n', s1, hr, hle, hst⟩ := dec89Loop_run fuel 0 s h
      rw [hr]
      exact ⟨_, rfl, by simpa using hle, step_trans hst
        (step_of_parts rfl rfl (by first | exact suffix_exists _ _ | exact suffix_exists2 _ _ _) (by first | exact suffix_exists _ _ | exact suffix_exists2 _ _ _) rfl)⟩
    · split
      · -- x/u case
        obtain ⟨hle, hst⟩ := hexDigits_run (if s.chr = 120 then 2 else 4) 16 0 (read s)
        have hle2 : mu (hexDigits (if s.chr = 120 then 2 else 4) 16 0 (read s)).1 ≤ mu s :=
          le_trans hle (mu_read_le s)
        have hst2 := step_trans (step_read s) hst
        rcases hh : hexDigits (if s.chr = 120 then 2 else 4) 16 0 (read s) with ⟨s2, vo⟩
        rw [hh] at hle2 hst2
        rcases vo with _ | v
        · exact ⟨_, rfl, by simpa using hle2, step_trans hst2
            (step_of_parts rfl rfl ⟨[], by simp⟩ (by first | exact suffix_exists _ _ | exact suffix_exists2 _ _ _) rfl)⟩
        · dsimp only
          split
          · exact ⟨_, rfl, by simpa using hle2, step_trans hst2
              (step_of_parts rfl rfl ⟨[], by simp⟩ (by first | exact suffix_exists _ _ | exact suffix_exists2 _ _ _) rfl)⟩
          · split
            · exact ⟨_, rfl, by simpa using hle2, step_trans hst2
                (step_of_parts rfl rfl ⟨[], by simp⟩ (by first | exact suffix_exists _ _ | exact suffix_exists2 _ _ _) rfl)⟩
            · exact ⟨_, rfl, by simpa using hle2, step_trans hst2
                (step_of_parts rfl rfl (by first | exact suffix_exists _ _ | exact suffix_exists2 _ _ _) (by first | exact suffix_exists _ _ | exact suffix_exists2 _ _ _) rfl)⟩
      · split
        · -- backslash-b inside a class
          refine ⟨_, rfl, ?_, step_trans (step_buffer_append ..) (step_read _)⟩
          exact le_trans (mu_read_le _) (le_of_eq (mu_buffer_update ..))
        · split
          · -- pass-through escapes
            refine ⟨_, rfl, ?_, step_trans (step_buffer_append ..) (step_pass _)⟩
            exact le_trans (mu_pass_le _) (le_of_eq (mu_buffer_update ..))
          · split
            · -- control escape
              split
              · refine ⟨_, rfl, ?_, step_trans (step_read s)
                  (step_to_read_buffer _ _ (suffix_exists2 _ _ _))⟩
                exact le_trans (le_trans (mu_read_le _)
                  (le_of_eq (mu_buffer_update ..))) (mu_read_le s)
              · split
                · refine ⟨_, rfl, ?_, step_trans (step_read s)
                    (step_to_read_buffer _ _ (suffix_exists2 _ _ _))⟩
                  exact le_trans (le_trans (mu_read_le _)
                    (le_of_eq (mu_buffer_update ..))) (mu_read_le s)
                · exact ⟨_, rfl, by simpa using mu_read_le s,
                    step_trans (step_read s) (step_buffer_append ..)⟩
            · -- default case
              split
              · refine ⟨_, rfl, ?_, step_trans (step_buffer_append ..) (step_pass _)⟩
                exact le_trans (mu_pass_le _) (le_of_eq (mu_buffer_update ..))
              · exact ⟨_, rfl, mu_pass_le s, step_pass s⟩

theorem read_invalid (s : RegExpParser) : (read s).invalid = s.invalid := by
  unfold read
  split <;> rfl

theorem mu_lookaheadCheck (s : RegExpParser) : mu (lookaheadCheck s) = mu s := by
  unfold lookaheadCheck
  rcases h : s.str.drop s.chrOffset with _ | ⟨b0, _ | ⟨b1, t⟩⟩ <;> simp <;> split <;> rfl

theorem step_lookaheadCheck (s : RegExpParser) : Step s (lookaheadCheck s) := by
  unfold lookaheadCheck
  rcases h : s.str.drop s.chrOffset with _ | ⟨b0, _ | ⟨b1, t⟩⟩
  · exact step_refl s
  · exact step_refl s
  · dsimp only
    split
    · exact step_errors_append ..
    · exact step_refl s

theorem finishGroup_run (s1 : RegExpParser) :
    mu (finishGroup s1) ≤ mu s1 ∧ Step s1 (finishGroup s1) := by
  unfold finishGroup
  split
  · exact ⟨le_of_eq rfl, rfl, rfl, ⟨_, rfl⟩, ⟨[], by simp⟩, fun _ => rfl,
      fun _ => Or.inr ⟨.unterminatedGroup, by simp, Or.inr (Or.inl rfl)⟩⟩
  · exact ⟨mu_pass_le s1, step_pass s1⟩

theorem scanBracketLoop_run : ∀ fuel (s : RegExpParser), mu s < fuel →
    ∃ s', scanBracketLoop fuel s = some s' ∧ mu s' ≤ mu s ∧ Step s s' ∧
      (s'.chr = -1 ∨ s'.chr = 93) := by
  intro fuel
  induction fuel with
  | zero => intro s h; omega
  | succ f ih =>
    intro s h
    unfold scanBracketLoop
    split
    · exact ⟨s, rfl, le_refl _, step_refl s, Or.inl (by assumption)⟩
    · split
      · exact ⟨s, rfl, le_refl _, step_refl s, Or.inr (by assumption)⟩
      · rename_i hne _
        have hlt : mu (read s) < mu s := mu_read_lt s hne
        split
        · obtain ⟨s1, he, hle1, hst1⟩ := scanEscape_run f true (read s) (by omega)
          rw [he]
          obtain ⟨s', hr, hle2, hst2, hc⟩ := ih s1 (by omega)
          exact ⟨s', hr, by omega, step_trans (step_read s)
            (step_trans hst1 hst2), hc⟩
        · have hlt2 : mu (pass s) < mu s := mu_pass_lt s hne
          obtain ⟨s', hr, hle2, hst2, hc⟩ := ih (pass s) (by omega)
          exact ⟨s', hr, by omega, step_trans (step_pass s) hst2, hc⟩

theorem scanBracket_run (fuel : Nat) (s : RegExpParser) (h : mu s < fuel) :
    ∃ s', scanBracket fuel s = some s' ∧ mu s' ≤ mu s ∧ Step s s' := by
  obtain ⟨s1, hr, hle, hst, hc⟩ := scanBracketLoop_run fuel s h
  unfold scanBracket
  rw [hr]
  refine ⟨_, rfl, ?_, ?_⟩
  · dsimp only
    split
    · simpa using hle
    · exact le_trans (mu_pass_le s1) hle
  · refine step_trans hst ?_
    dsimp only
    split
    · exact ⟨rfl, rfl, ⟨_, rfl⟩, ⟨[], by simp⟩, fun _ => rfl,
        fun _ => Or.inr ⟨.unterminatedClass, by simp, Or.inr (Or.inr rfl)⟩⟩
    · exact step_pass s1

theorem scanGroupLoop_run : ∀ fuel (s : RegExpParser), mu s < fuel →
    ∃ s', scanGroupLoop fuel s = some s' ∧ mu s' ≤ mu s ∧ Step s s' ∧
      (s'.chr = -1 ∨ s'.chr = 41) := by
  intro fuel
  induction fuel with
  | zero => intro s h; omega
  | succ f ih =>
    intro s h
    unfold scanGroupLoop
    split
    · rename_i hc
      exact ⟨s, rfl, le_refl _, step_refl s, hc⟩
    · rename_i hc
      have hne : s.chr ≠ -1 := fun he => hc (Or.inl he)
      split
      · have hlt : mu (read s) < mu s := mu_read_lt s hne
        obtain ⟨s1, he, hle1, hst1⟩ := scanEscape_run f false (read s) (by omega)
        rw [he]
        obtain ⟨s', hr, hle2, hst2, hcc⟩ := ih s1 (by omega)
        exact ⟨s', hr, by omega, step_trans (step_read s)
          (step_trans hst1 hst2), hcc⟩
      · split
        · -- nested group
          have hlt : mu (pass s) < mu s := mu_pass_lt s hne
          have hmu1 : mu (lookaheadCheck (pass s)) = mu (pass s) :=
            mu_lookaheadCheck (pass s)
          obtain ⟨s1, hr1, hle1, hst1, hc1⟩ :=
            ih (lookaheadCheck (pass s)) (by omega)
          rw [hr1]
          obtain ⟨hfm, hfs⟩ := finishGroup_run s1
          obtain ⟨s', hr2, hle2, hst2, hcc⟩ := ih (finishGroup s1) (by omega)
          refine ⟨s', by simpa using hr2, by omega, ?_, hcc⟩
          exact step_trans (step_pass s) (step_trans (step_lookaheadCheck _)
            (step_trans hst1 (step_trans hfs hst2)))
        · split
          · -- character class
            have hlt : mu (pass s) < mu s := mu_pass_lt s hne
            obtain ⟨s1, hr1, hle1, hst1⟩ := scanBracket_run f (pass s) (by omega)
            rw [hr1]
            obtain ⟨s', hr2, hle2, hst2, hcc⟩ := ih s1 (by omega)
            exact ⟨s', hr2, by omega, step_trans (step_pass s)
              (step_trans hst1 hst2), hcc⟩
          · have hlt : mu (pass s) < mu s := mu_pass_lt s hne
            obtain ⟨s', hr, hle2, hst2, hcc⟩ := ih (pass s) (by omega)
            exact ⟨s', hr, by omega, step_trans (step_pass s) hst2, hcc⟩

theorem scanGroup_run (fuel : Nat) (s : RegExpParser) (h : mu s < fuel) :
    ∃ s', scanGroup fuel s = some s' ∧ mu s' ≤ mu s ∧ Step s s' := by
  have hmu : mu (lookaheadCheck s) = mu s := mu_lookaheadCheck s
  obtain ⟨s1, hr, hle, hst, hc⟩ := scanGroupLoop_run fuel (lookaheadCheck s) (by omega)
  unfold scanGroup
  rw [hr]
  obtain ⟨hfm, hfs⟩ := finishGroup_run s1
  exact ⟨_, rfl, by omega, step_trans (step_lookaheadCheck s) (step_trans hst hfs)⟩

theorem scanLoop_run : ∀ fuel (s : RegExpParser), mu s < fuel →
    ∃ s', scanLoop fuel s = some s' ∧ mu s' ≤ mu s ∧ Step s s' ∧ s'.chr = -1 := by
  intro fuel
  induction fuel with
  | zero => intro s h; omega
  | succ f ih =>
    intro s h
    unfold scanLoop
    split
    · rename_i hc
      exact ⟨s, rfl, le_refl _, step_refl s, hc⟩
    · rename_i hne
      split
      · have hlt : mu (read s) < mu s := mu_read_lt s hne
        obtain ⟨s1, he, hle1, hst1⟩ := scanEscape_run f false (read s) (by omega)
        rw [he]
        obtain ⟨s', hr, hle2, hst2, hcc⟩ := ih s1 (by omega)
        exact ⟨s', hr, by omega, step_trans (step_read s)
          (step_trans hst1 hst2), hcc⟩
      · split
        · have hlt : mu (pass s) < mu s := mu_pass_lt s hne
          obtain ⟨s1, hr1, hle1, hst1⟩ := scanGroup_run f (pass s) (by omega)
          rw [hr1]
          obtain ⟨s', hr2, hle2, hst2, hcc⟩ := ih s1 (by omega)
          exact ⟨s', hr2, by omega, step_trans (step_pass s)
            (step_trans hst1 hst2), hcc⟩
        · split
          · have hlt : mu (pass s) < mu s := mu_pass_lt s hne
            obtain ⟨s1, hr1, hle1, hst1⟩ := scanBracket_run f (pass s) (by omega)
            rw [hr1]
            obtain ⟨s', hr2, hle2, hst2, hcc⟩ := ih s1 (by omega)
            exact ⟨s', hr2, by omega, step_trans (step_pass s)
              (step_trans hst1 hst2), hcc⟩
          · split
            · -- unmatched right parenthesis
              have hst0 : Step s { s with
                  errors := s.errors ++ [.unmatchedParen], invalid := true } :=
                ⟨rfl, rfl, ⟨_, rfl⟩, ⟨[], by simp⟩, fun _ => rfl,
                 fun _ => Or.inr ⟨.unmatchedParen, by simp, Or.inl rfl⟩⟩
              have hlt : mu (pass { s with
                  errors := s.errors ++ [.unmatchedParen], invalid := true }) < mu s :=
                mu_pass_lt { s with
                  errors := s.errors ++ [.unmatchedParen], invalid := true } hne
              obtain ⟨s', hr, hle2, hst2, hcc⟩ := ih (pass { s with
                  errors := s.errors ++ [.unmatchedParen], invalid := true })
                (by omega)
              exact ⟨s', hr, by omega,
                step_trans hst0 (step_trans (step_pass _) hst2), hcc⟩
            · have hlt : mu (pass s) < mu s := mu_pass_lt s hne
              obtain ⟨s', hr, hle2, hst2, hcc⟩ := ih (pass s) (by omega)
              exact ⟨s', hr, by omega, step_trans (step_pass s) hst2, hcc⟩

/-- The scanner run of TransformRegExp always completes within its fuel,
ending at the EOF sentinel, and evolves the freshly initialised state. -/
theorem runScan_run (p : List Nat) :
    ∃ s', runScan p = some s' ∧ Step (read (initRegExpParser p)) s' ∧
      s'.chr = -1 := by
  have hmu : mu (read (initRegExpParser p)) < p.length + 2 := by
    have h1 : mu (initRegExpParser p) = p.length + 1 := by
      simp [mu, initRegExpParser]
    have := mu_read_le (initRegExpParser p)
    omega
  obtain ⟨s', hr, hle, hst, hc⟩ := scanLoop_run (p.length + 2) _ hmu
  exact ⟨s', hr, hst, hc⟩

/-! ### Parser-side data model (src/parser/error.go, src/parser/parser.go)

Source text is a byte list; filenames and messages stay Lean strings.
file.Idx is a plain natural number (0 meaning no position). -/

/-- file.Position as used by the parser: Filename, Line, Column (the
spec, section 3).  The unused Offset field of the Go struct is omitted. -/
structure FilePosition where
  filename : String
  line : Nat
  column : Nat
deriving DecidableEq

/-- error.go:51-54 `Error`: a message and the position it was raised at. -/
structure ParseError where
  message : String
  position : FilePosition
deriving DecidableEq

/-- error.go:58-69 `Error.Error`: canonical rendering, substituting
(anonymous) for an empty filename. -/
def ParseError.render (e : ParseError) : String :=
  (if e.position.filename = "" then "(anonymous)" else e.position.filename) ++
  ": Line " ++ toString e.position.line ++ ":" ++ toString e.position.column ++
  " " ++ e.message

/-- The `_parser` state (parser.go:12-37) restricted to the fields the
claims touch; token, scope and recovery bookkeeping belong to the scanner
and statement parser, which are outside src/. -/
structure ParserState where
  filename : String
  str : List Nat
  length : Nat
  base : Nat
  chr : Int
  chrOffset : Nat
  offset : Nat
  errors : List ParseError
deriving DecidableEq

/-- parser.go:39-46 `_newParser`: note that the struct literal sets only
chr, str, length and base — the filename parameter is dropped, so the
field keeps its Go zero value, the empty string. -/
def newParserBase (filename : String) (src : List Nat) (base : Nat) : ParserState :=
  { filename := ""
    str := src
    length := src.length
    base := base
    chr := 32
    chrOffset := 0
    offset := 0
    errors := [] }

/-- parser.go:48-50 `newParser`. -/
def newParser (filename : String) (src : List Nat) : ParserState :=
  newParserBase filename src 1

/-- parser.go:120-122 `idxOf`. -/
def idxOf (p : ParserState) (offset : Nat) : Nat := p.base + offset

/-- parser.go:133-155 `lineCount`, iterating the runes of `str` with their
byte indices exactly as Go range does: carriage return counts a line and
latches `pair` so that an immediately following newline is not counted
again; the two Unicode separators record `index + 2` as the line-holding
position. -/
def lineCountAux : List Nat → Nat → Bool → Nat → Int → Nat × Int
  | [], _, _, line, last => (line, last)
  | b :: rest, index, pair, line, last =>
    let d := utf8Decode (b :: rest)
    if d.1 = 13 then
      lineCountAux ((b :: rest).drop d.2) (index + d.2) true (line + 1) (index : Int)
    else if d.1 = 10 then
      lineCountAux ((b :: rest).drop d.2) (index + d.2) false
        (if pair then line else line + 1) (index : Int)
    else if d.1 = 0x2028 ∨ d.1 = 0x2029 then
      lineCountAux ((b :: rest).drop d.2) (index + d.2) false (line + 1)
        ((index : Int) + 2)
    else
      lineCountAux ((b :: rest).drop d.2) (index + d.2) false line last
termination_by bs => bs.length
decreasing_by
  all_goals
    simp only [List.length_drop]
    have := utf8Decode_width_pos (b :: rest)
    simp only [List.length_cons]
    omega

def lineCount (str : List Nat) : Nat × Int := lineCountAux str 0 false 0 (-1)

/-- parser.go:157-171 `position`: slice the source up to the offset of the
index, count lines, and derive the 1-based column. -/
def position (p : ParserState) (idx : Nat) : FilePosition :=
  let offset := idx - p.base
  let str := p.str.take offset
  let lc := lineCount str
  { filename := p.filename
    line := 1 + lc.1
    column := if 0 ≤ lc.2 then offset - lc.2.toNat else 1 + str.length }

/-- The Error value built by `_parser.error` (error.go:71-94) once the
place has been resolved to an Idx. -/
def mkParseError (p : ParserState) (idx : Nat) (msg : String) : ParseError :=
  { message := msg, position := position p idx }

/-- error.go:71-94 `error` with an int place: resolve through idxOf,
record, and return the error. -/
def parserErrorAtOffset (p : ParserState) (place : Nat) (msg : String) :
    ParseError × ParserState :=
  let e := mkParseError p (idxOf p place) msg
  (e, { p with errors := p.errors ++ [e] })

/-- error.go:71-94 `error` with a file.Idx place: zero resolves to the
current character offset. -/
def parserErrorAtIdx (p : ParserState) (place : Nat) (msg : String) :
    ParseError × ParserState :=
  let idx := if place = 0 then idxOf p p.chrOffset else place
  let e := mkParseError p idx msg
  (e, { p with errors := p.errors ++ [e] })

/-- Modelled from the spec: the Program node (section 3) — the parser
always produces one; its statement contents are outside the claims under
verification, so the body is left abstract. -/
structure Program where
  body : List Unit
deriving DecidableEq

/-- Modelled from the spec: the scanner advance `next` (parser.go:89-91
calls it, the scanner itself is outside src/).  Token effects are not
modelled; errors it may record are covered by quantifying over the
parser state in the theorems. -/
def next (p : ParserState) : ParserState := p

/-- Modelled from the spec: `parseProgram` (section 4.2, best-effort
recursive descent, always yields a Program).  Statement structure and the
errors it appends are outside src/, so the theorems quantify over the
state it hands back. -/
def parseProgram (p : ParserState) : Program × ParserState := (⟨[]⟩, p)

/-- parser.go:80-87 `parse`: advance, parse the program, and return it
together with the first recorded error if the list is non-empty. -/
def parse (p : ParserState) : Program × Option ParseError :=
  let pp := parseProgram (next p)
  match pp.2.errors with
  | [] => (pp.1, none)
  | e :: _ => (pp.1, some e)

/-- Modelled from the spec: a File of the FileSet sidecar (section 3). -/
structure GoFile where
  name : String
  base : Nat
  source : List Nat
deriving DecidableEq

/-- Modelled from the spec: the FileSet, an ordered list of Files
(section 3); AddFile appends a File whose base is one past the previous
base plus source length, and returns the new base. -/
structure FileSet where
  files : List GoFile
deriving DecidableEq

def FileSet.nextBase (fs : FileSet) : Nat :=
  match fs.files.getLast? with
  | Option.none => 1
  | Option.some f => 1 + (f.base + f.source.length)

def FileSet.addFile (fs : FileSet) (name : String) (src : List Nat) :
    Nat × FileSet :=
  let base := fs.nextBase
  (base, ⟨fs.files ++ [⟨name, base, src⟩]⟩)

/-- parser.go:61-68 `ParseFile`: with a FileSet the new file base is used,
without one the base is 1; mode is presently ignored by the source. -/
def ParseFile (fileSet : Option FileSet) (filename : String) (src : List Nat)
    (mode : Nat) : Program × Option ParseError :=
  let base := match fileSet with
    | Option.none => 1
    | Option.some fs => (fs.addFile filename src).1
  parse (newParserBase filename src base)

/-! ### Specification-side line/column definitions (claim C5)

These two definitions follow the words of the spec (section 3): the line
is one plus the number of line terminators before the index, with the
terminator set being newline, carriage return, the pair counted as one,
U+2028 and U+2029; the column is the byte offset from the start of the
current line plus one, the line start being the byte just past the last
terminator. -/

def specTermCount : List Nat → Nat
  | [] => 0
  | b :: rest =>
    if b = 13 then
      (if rest.head? = some 10 then specTermCount (rest.drop 1)
       else specTermCount rest) + 1
    else if b = 10 then specTermCount rest + 1
    else
      let d := utf8Decode (b :: rest)
      (if d.1 = 0x2028 ∨ d.1 = 0x2029 then 1 else 0) +
        specTermCount ((b :: rest).drop d.2)
termination_by bs => bs.length
decreasing_by
  all_goals simp only [List.length_drop, List.length_cons]
  all_goals try omega
  all_goals exact Nat.sub_lt (by omega) (utf8Decode_width_pos _)

def specLineStartAux : List Nat → Nat → Nat → Nat
  | [], _, acc => acc
  | b :: rest, index, acc =>
    if b = 13 then
      if rest.head? = some 10 then specLineStartAux (rest.drop 1) (index + 2) (index + 2)
      else specLineStartAux rest (index + 1) (index + 1)
    else if b = 10 then specLineStartAux rest (index + 1) (index + 1)
    else
      let d := utf8Decode (b :: rest)
      specLineStartAux ((b :: rest).drop d.2) (index + d.2)
        (if d.1 = 0x2028 ∨ d.1 = 0x2029 then index + d.2 else acc)
termination_by bs _ _ => bs.length
decreasing_by
  all_goals simp only [List.length_drop, List.length_cons]
  all_goals try omega
  all_goals exact Nat.sub_lt (by omega) (utf8Decode_width_pos _)

def specLineStart (bs : List Nat) : Nat := specLineStartAux bs 0 0

/-- A multi-byte (or malformed) leading byte never decodes below 0x80, so
the ASCII terminators 13 and 10 can only come from their own bytes. -/
theorem utf8Decode_high (b : Nat) (rest : List Nat) (h : 0x80 ≤ b) :
    0x80 ≤ (utf8Decode (b :: rest)).1 := by
  rcases rest with _ | ⟨b1, _ | ⟨b2, _ | ⟨b3, r⟩⟩⟩ <;>
    simp only [utf8Decode] <;> split_ifs <;>
    simp_all [runeErrorChar, isCont] <;> omega

/-- Shape of a decode result: each width determines a value range. -/
theorem utf8Decode_shape (bs : List Nat) :
    ((utf8Decode bs).2 = 1 ∧
      ((utf8Decode bs).1 < 0x80 ∨ (utf8Decode bs).1 = runeErrorChar)) ∨
    ((utf8Decode bs).2 = 2 ∧ 0x80 ≤ (utf8Decode bs).1 ∧ (utf8Decode bs).1 < 0x800) ∨
    ((utf8Decode bs).2 = 3 ∧ 0x800 ≤ (utf8Decode bs).1 ∧
      (utf8Decode bs).1 < 0x10000) ∨
    ((utf8Decode bs).2 = 4 ∧ 0x10000 ≤ (utf8Decode bs).1 ∧
      (utf8Decode bs).1 ≤ 0x10FFFF) := by
  have hro : runeErrorChar = 0xFFFD := rfl
  rcases bs with _ | ⟨b0, _ | ⟨b1, _ | ⟨b2, _ | ⟨b3, r⟩⟩⟩⟩
  all_goals simp only [utf8Decode]
  all_goals try split_ifs
  all_goals try dsimp only
  all_goals try simp only [Bool.and_eq_true, decide_eq_true_eq, isCont] at *
  all_goals try simp only [true_and, and_true, or_true, true_or]
  all_goals omega

/-- The two Unicode separators only arise from the three-byte form. -/
theorem utf8Decode_sep_width (bs : List Nat)
    (h : (utf8Decode bs).1 = 0x2028 ∨ (utf8Decode bs).1 = 0x2029) :
    (utf8Decode bs).2 = 3 := by
  have hs := utf8Decode_shape bs
  have hro : runeErrorChar = 0xFFFD := rfl
  omega

/-- An ASCII rune value comes with width one. -/
theorem utf8Decode_low_width (bs : List Nat)
    (h : (utf8Decode bs).1 < 0x80) : (utf8Decode bs).2 = 1 := by
  have hs := utf8Decode_shape bs
  have hro : runeErrorChar = 0xFFFD := rfl
  omega

/-- The `last` bookkeeping of lineCount in isolation: the byte position
recorded by the most recent terminator event (the newline byte itself, or
two past the start of a Unicode separator), threading the previous value
when no event occurs. -/
def lastUpd : List Nat → Nat → Int → Int
  | [], _, last => last
  | b :: rest, index, last =>
    let d := utf8Decode (b :: rest)
    lastUpd ((b :: rest).drop d.2) (index + d.2)
      (if d.1 = 13 ∨ d.1 = 10 then (index : Int)
       else if d.1 = 0x2028 ∨ d.1 = 0x2029 then (index : Int) + 2
       else last)
termination_by bs _ _ => bs.length
decreasing_by
  simp only [List.length_drop, List.length_cons]
  exact Nat.sub_lt (by omega) (utf8Decode_width_pos _)

/-- Terminator count with a pending carriage-return pair: a leading
newline is absorbed by the preceding carriage return already counted. -/
def specTermCountP (pair : Bool) (bs : List Nat) : Nat :=
  if pair = true ∧ bs.head? = some 10 then specTermCount (bs.drop 1)
  else specTermCount bs

theorem specTermCountP_false (bs : List Nat) :
    specTermCountP false bs = specTermCount bs := by
  rw [specTermCountP]
  simp

theorem specTermCountP_not10 (pair : Bool) (bs : List Nat)
    (h : bs.head? ≠ some 10) : specTermCountP pair bs = specTermCount bs := by
  rw [specTermCountP, if_neg]
  rintro ⟨_, h10⟩
  exact h h10

theorem lineCountAux_eq : ∀ n (bs : List Nat), bs.length ≤ n →
    ∀ (index : Nat) (pair : Bool) (line : Nat) (last : Int),
    lineCountAux bs index pair line last =
      (line + specTermCountP pair bs, lastUpd bs index last) := by
  intro n
  induction n with
  | zero =>
    intro bs hlen index pair line last
    have hb : bs = [] := List.length_eq_zero.mp (Nat.le_zero.mp hlen)
    subst hb
    simp [lineCountAux, specTermCountP, specTermCount, lastUpd]
  | succ n ih =>
    intro bs hlen index pair line last
    rcases bs with _ | ⟨b, rest⟩
    · simp [lineCountAux, specTermCountP, specTermCount, lastUpd]
    · simp only [List.length_cons] at hlen
      by_cases hb13 : b = 13
      · subst hb13
        have hd : utf8Decode (13 :: rest) = ((13 : Int), 1) :=
          utf8Decode_ascii 13 rest (by norm_num)
        rw [lineCountAux, lastUpd]
        simp only [hd, List.drop_succ_cons, List.drop_zero]
        norm_num
        rw [ih rest (by omega)]
        have hcount : specTermCountP pair (13 :: rest) =
            specTermCountP true rest + 1 := by
          rw [specTermCountP_not10 pair (13 :: rest) (by simp), specTermCount,
            specTermCountP]
          simp
        rw [hcount, Prod.mk.injEq]
        exact ⟨by omega, rfl⟩
      · by_cases hb10 : b = 10
        · subst hb10
          have hd : utf8Decode (10 :: rest) = ((10 : Int), 1) :=
            utf8Decode_ascii 10 rest (by norm_num)
          rw [lineCountAux, lastUpd]
          simp only [hd, List.drop_succ_cons, List.drop_zero]
          norm_num
          rw [ih rest (by omega)]
          have hcount : specTermCountP pair (10 :: rest) =
              specTermCountP false rest + (if pair = true then 0 else 1) := by
            rw [specTermCountP_false, specTermCountP]
            cases pair
            · simp [specTermCount]
            · simp
          rw [hcount, Prod.mk.injEq]
          refine ⟨?_, rfl⟩
          cases pair <;> simp <;> omega
        · -- neither a carriage return nor a newline byte
          have hne : (utf8Decode (b :: rest)).1 ≠ 13 ∧
              (utf8Decode (b :: rest)).1 ≠ 10 := by
            by_cases hba : b < 0x80
            · rw [utf8Decode_ascii b rest hba]
              constructor <;> simp <;> omega
            · have := utf8Decode_high b rest (by omega)
              constructor <;> omega
          have hw := utf8Decode_width_pos (b :: rest)
          have hwle := utf8Decode_width_le (b :: rest) (by simp)
          rw [lineCountAux, lastUpd]
          simp only [if_neg hne.1, if_neg hne.2,
            if_neg (by simp [hne.1, hne.2] : ¬((utf8Decode (b :: rest)).1 = 13 ∨
              (utf8Decode (b :: rest)).1 = 10))]
          have hcount : specTermCountP pair (b :: rest) =
              (if (utf8Decode (b :: rest)).1 = 0x2028 ∨
                  (utf8Decode (b :: rest)).1 = 0x2029 then 1 else 0) +
              specTermCountP false ((b :: rest).drop (utf8Decode (b :: rest)).2) := by
            rw [specTermCountP_not10 pair (b :: rest)
              (by simp; exact fun h => hb10 h), specTermCount,
              if_neg hb13, if_neg hb10, specTermCountP_false]
          have hdroplen : ((b :: rest).drop (utf8Decode (b :: rest)).2).length ≤ n := by
            simp only [List.length_drop, List.length_cons]
            omega
          by_cases hsep : (utf8Decode (b :: rest)).1 = 0x2028 ∨
              (utf8Decode (b :: rest)).1 = 0x2029
          · simp only [if_pos hsep] at hcount ⊢
            rw [ih ((b :: rest).drop (utf8Decode (b :: rest)).2) hdroplen,
              hcount, Prod.mk.injEq]
            exact ⟨by omega, rfl⟩
          · simp only [if_neg hsep] at hcount ⊢
            rw [ih ((b :: rest).drop (utf8Decode (b :: rest)).2) hdroplen,
              hcount, Prod.mk.injEq]
            exact ⟨by omega, rfl⟩

theorem specLineStartAux_eq : ∀ n (bs : List Nat), bs.length ≤ n →
    ∀ (index acc : Nat) (last : Int), (acc : Int) = last + 1 →
    (specLineStartAux bs index acc : Int) = lastUpd bs index last + 1 := by
  intro n
  induction n with
  | zero =>
    intro bs hlen index acc last hinv
    have hb : bs = [] := List.length_eq_zero.mp (Nat.le_zero.mp hlen)
    subst hb
    rw [specLineStartAux, lastUpd]
    exact hinv
  | succ n ih =>
    intro bs hlen index acc last hinv
    rcases bs with _ | ⟨b, rest⟩
    · rw [specLineStartAux, lastUpd]
      exact hinv
    · simp only [List.length_cons] at hlen
      by_cases hb13 : b = 13
      · subst hb13
        have hd : utf8Decode (13 :: rest) = ((13 : Int), 1) :=
          utf8Decode_ascii 13 rest (by norm_num)
        rw [specLineStartAux, lastUpd]
        simp only [hd, List.drop_succ_cons, List.drop_zero, if_pos rfl]
        norm_num
        rcases rest with _ | ⟨b2, rest2⟩
        · simp only [List.head?_nil]
          rw [if_neg (by simp)]
          rw [ih [] (by simp) (index + 1) (index + 1) index (by push_cast; ring)]
        · simp only [List.length_cons] at hlen
          by_cases hb2 : b2 = 10
          · subst hb2
            simp only [List.head?_cons, if_pos rfl]
            have hd2 : utf8Decode (10 :: rest2) = ((10 : Int), 1) :=
              utf8Decode_ascii 10 rest2 (by norm_num)
            rw [lastUpd]
            simp only [hd2, List.drop_succ_cons, List.drop_zero]
            norm_num
            rw [show index + 1 + 1 = index + 2 by omega]
            exact ih rest2 (by omega) (index + 2) (index + 2) (index + 1)
              (by push_cast; ring)
          · simp only [List.head?_cons]
            rw [if_neg (show ¬(some b2 = some (10 : Nat)) by simpa using hb2)]
            exact ih (b2 :: rest2) (by simp only [List.length_cons]; omega)
              (index + 1) (index + 1) index (by push_cast; ring)
      · by_cases hb10 : b = 10
        · subst hb10
          have hd : utf8Decode (10 :: rest) = ((10 : Int), 1) :=
            utf8Decode_ascii 10 rest (by norm_num)
          rw [specLineStartAux, lastUpd]
          simp only [hd, List.drop_succ_cons, List.drop_zero, if_neg (by norm_num :
            ¬(10 : Nat) = 13), if_pos rfl]
          norm_num
          exact ih rest (by omega) (index + 1) (index + 1) index (by push_cast; ring)
        · have hne : (utf8Decode (b :: rest)).1 ≠ 13 ∧
              (utf8Decode (b :: rest)).1 ≠ 10 := by
            by_cases hba : b < 0x80
            · rw [utf8Decode_ascii b rest hba]
              constructor <;> simp <;> omega
            · have := utf8Decode_high b rest (by omega)
              constructor <;> omega
          have hw := utf8Decode_width_pos (b :: rest)
          have hwle := utf8Decode_width_le (b :: rest) (by simp)
          rw [specLineStartAux, lastUpd]
          simp only [if_neg hb13, if_neg hb10,
            if_neg (by simp [hne.1, hne.2] : ¬((utf8Decode (b :: rest)).1 = 13 ∨
              (utf8Decode (b :: rest)).1 = 10))]
          have hdroplen : ((b :: rest).drop (utf8Decode (b :: rest)).2).length ≤ n := by
            simp only [List.length_drop, List.length_cons]
            omega
          by_cases hsep : (utf8Decode (b :: rest)).1 = 0x2028 ∨
              (utf8Decode (b :: rest)).1 = 0x2029
          · have hw3 : (utf8Decode (b :: rest)).2 = 3 := utf8Decode_sep_width _ hsep
            simp only [if_pos hsep]
            refine ih _ hdroplen _ _ _ ?_
            rw [hw3]
            push_cast
            ring
          · simp only [if_neg hsep]
            exact ih _ hdroplen _ _ _ hinv

theorem lastUpd_lt : ∀ n (bs : List Nat), bs.length ≤ n →
    ∀ (index : Nat) (last : Int), last < index →
    lastUpd bs index last < index + bs.length := by
  intro n
  induction n with
  | zero =>
    intro bs hlen index last hl
    have hb : bs = [] := List.length_eq_zero.mp (Nat.le_zero.mp hlen)
    subst hb
    rw [lastUpd]
    simpa using hl
  | succ n ih =>
    intro bs hlen index last hl
    rcases bs with _ | ⟨b, rest⟩
    · rw [lastUpd]
      simpa using hl
    · simp only [List.length_cons] at hlen
      have hw := utf8Decode_width_pos (b :: rest)
      have hwle := utf8Decode_width_le (b :: rest) (by simp)
      have hdroplen : ((b :: rest).drop (utf8Decode (b :: rest)).2).length ≤ n := by
        simp only [List.length_drop, List.length_cons]
        omega
      rw [lastUpd]
      have harg : (if (utf8Decode (b :: rest)).1 = 13 ∨ (utf8Decode (b :: rest)).1 = 10
            then (index : Int)
          else if (utf8Decode (b :: rest)).1 = 0x2028 ∨ (utf8Decode (b :: rest)).1 = 0x2029
            then (index : Int) + 2
          else last) < index + (utf8Decode (b :: rest)).2 := by
        split
        · omega
        · split
          · have hw3 : (utf8Decode (b :: rest)).2 = 3 :=
              utf8Decode_sep_width _ (by assumption)
            omega
          · omega
      have := ih ((b :: rest).drop (utf8Decode (b :: rest)).2) hdroplen
        (index + (utf8Decode (b :: rest)).2) _ harg
      simp only [List.length_drop, List.length_cons] at this hwle hdroplen ⊢
      omega

theorem lastUpd_ge : ∀ n (bs : List Nat), bs.length ≤ n →
    ∀ (index : Nat) (last : Int), -1 ≤ last → -1 ≤ lastUpd bs index last := by
  intro n
  induction n with
  | zero =>
    intro bs hlen index last hl
    have hb : bs = [] := List.length_eq_zero.mp (Nat.le_zero.mp hlen)
    subst hb
    rw [lastUpd]
    exact hl
  | succ n ih =>
    intro bs hlen index last hl
    rcases bs with _ | ⟨b, rest⟩
    · rw [lastUpd]
      exact hl
    · simp only [List.length_cons] at hlen
      have hw := utf8Decode_width_pos (b :: rest)
      have hwle := utf8Decode_width_le (b :: rest) (by simp)
      have hdroplen : ((b :: rest).drop (utf8Decode (b :: rest)).2).length ≤ n := by
        simp only [List.length_drop, List.length_cons]
        omega
      rw [lastUpd]
      refine ih _ hdroplen _ _ ?_
      split
      · omega
      · split
        · omega
        · exact hl

/-- lineCount computes the spec-side terminator count and the last
terminator position. -/
theorem lineCount_eq (bs : List Nat) :
    lineCount bs = (specTermCount bs, lastUpd bs 0 (-1)) := by
  rw [lineCount, lineCountAux_eq bs.length bs (le_refl _)]
  rw [specTermCountP_false]
  simp

/-- The spec-side line start is one past the last terminator position. -/
theorem specLineStart_eq (bs : List Nat) :
    (specLineStart bs : Int) = lastUpd bs 0 (-1) + 1 := by
  rw [specLineStart]
  exact specLineStartAux_eq bs.length bs (le_refl _) 0 0 (-1) (by norm_num)

/-! ### Symbolic stepping lemmas for the escape scanner -/

theorem read_buffer (s : RegExpParser) : (read s).buffer = s.buffer := by
  unfold read
  split <;> rfl

theorem read_str (s : RegExpParser) : (read s).str = s.str := by
  unfold read
  split <;> rfl

theorem read_length (s : RegExpParser) : (read s).length = s.length := by
  unfold read
  split <;> rfl

theorem read_buffer_comm (s : RegExpParser) (b : List Nat) :
    read { s with buffer := b } = { read s with buffer := b } := by
  by_cases h : s.offset < s.length <;> simp [read, h]

theorem read_ascii (s : RegExpParser) (b : Nat) (t : List Nat)
    (hlen : s.length = s.str.length)
    (hdrop : s.str.drop s.offset = b :: t) (hb : b < 0x80) :
    read s = { s with
      chrOffset := s.offset
      offset := s.offset + 1
      chr := (b : Int) } := by
  have hofflt : s.offset < s.length := by
    rw [hlen]
    by_contra hcon
    push_neg at hcon
    rw [List.drop_eq_nil_of_le hcon] at hdrop
    exact List.noConfusion hdrop
  have hne : ¬((utf8Decode (s.str.drop s.offset)).1 = runeErrorChar ∧
      (utf8Decode (s.str.drop s.offset)).2 = 1) := by
    rw [hdrop, utf8Decode_ascii b t hb]
    rintro ⟨h1, _⟩
    rw [runeErrorChar] at h1
    omega
  rw [read, if_pos hofflt]
  have hbne : ¬((b : Int) = runeErrorChar) := by
    rw [runeErrorChar]
    omega
  simp only [hdrop, utf8Decode_ascii b t hb, and_true, if_neg hbne]

theorem read_at_eof (s : RegExpParser) (hlen : s.length = s.str.length)
    (hdrop : s.str.drop s.offset = []) :
    read s = { s with chrOffset := s.length, chr := -1 } := by
  have : ¬ s.offset < s.length := by
    rw [hlen]
    intro hcon
    rw [List.drop_eq_nil_iff] at hdrop
    omega
  rw [read, if_neg this]

theorem wrap64_small (v : Int) (h1 : -(2 ^ 63) ≤ v) (h2 : v < 2 ^ 63) :
    wrap64 v = v := by
  rw [wrap64]
  have he : (2 : Int) ^ 63 = 9223372036854775808 := by norm_num
  have he2 : (2 : Int) ^ 64 = 18446744073709551616 := by norm_num
  rw [he, he2] at *
  omega

theorem digitValue_octal (chr : Int) (h1 : 48 ≤ chr) (h2 : chr ≤ 55) :
    (digitValue chr : Int) = chr - 48 := by
  rw [digitValue, if_pos ⟨h1, by omega⟩]
  omega

theorem octalLoop_stop (fuel : Nat) (v : Int) (n : Nat) (s : RegExpParser)
    (h : 8 ≤ digitValue s.chr) :
    octalLoop (fuel + 1) v n s = some (v, n, s) := by
  rw [octalLoop]
  try dsimp only
  rw [if_pos (by exact_mod_cast h)]

theorem octalLoop_step (fuel : Nat) (v : Int) (n : Nat) (s : RegExpParser)
    (h : digitValue s.chr < 8) :
    octalLoop (fuel + 1) v n s =
      octalLoop fuel (wrap64 (v * 8 + digitValue s.chr)) (n + 1) (read s) := by
  rw [octalLoop]
  try dsimp only
  rw [if_neg (by exact_mod_cast Nat.not_le.mpr h)]

theorem hexDigits_step (count base v : Nat) (s : RegExpParser)
    (h : digitValue s.chr < base) :
    hexDigits (count + 1) base v s =
      hexDigits count base ((v * base + digitValue s.chr) % 2 ^ 32) (read s) := by
  rw [hexDigits]
  try dsimp only
  rw [if_neg (Nat.not_le.mpr h)]

/-! ### Claim theorems -/

theorem runScan_step (p : List Nat) (s : RegExpParser)
    (h : runScan p = some s) : Step (read (initRegExpParser p)) s := by
  obtain ⟨s', hr, hst, hc⟩ := runScan_run p
  rw [h] at hr
  cases hr
  exact hst

theorem runScan_invalid_kind (p : List Nat) (s : RegExpParser)
    (h : runScan p = some s) (hinv : s.invalid = true) :
    ∃ e, e ∈ s.errors ∧ InvalidKind e := by
  have hst := runScan_step p s h
  rcases hst.2.2.2.2.2 hinv with hleft | hex
  · rw [read_invalid] at hleft
    exact absurd hleft (by rw [show (initRegExpParser p).invalid = false from rfl]; simp)
  · exact hex

theorem transform_of_run (p : List Nat) (s : RegExpParser)
    (hne : p ≠ []) (hrun : runScan p = some s) :
    TransformRegExp p =
      some (if s.invalid then ([], s.errors.head?) else (s.buffer, s.errors.head?)) := by
  have hemp : ¬(p.isEmpty = true) := by
    cases p
    · exact absurd rfl hne
    · simp
  rw [TransformRegExp, if_neg hemp, hrun, Option.map_some']

/-- Claim C10: for every input pattern, including malformed UTF-8, the
scanner run of TransformRegExp terminates within its fuel, having
advanced the reader to the end-of-input sentinel, and TransformRegExp
produces a result. -/
theorem thmC10 (p : List Nat) :
    ∃ s, runScan p = some s ∧ s.chr = -1 ∧ (TransformRegExp p).isSome = true := by
  obtain ⟨s, hr, hst, hc⟩ := runScan_run p
  refine ⟨s, hr, hc, ?_⟩
  by_cases hp : p = []
  · subst hp
    rw [TransformRegExp]
    rfl
  · rw [transform_of_run p s hp hr]
    rfl

/-- Claim C1: whenever the scan ends with the invalid flag set (the code's
notion of not being valid ECMAScript, established exactly by the
unterminated-group, unterminated-class and unmatched-parenthesis sites),
TransformRegExp returns the empty string together with the first recorded
error, and the error list is non-empty, holding one of those three
diagnostics; in particular the patterns (abc and [abc return the empty
string and an error. -/
theorem thmC1 :
    (∀ (p : List Nat) (s : RegExpParser), p ≠ [] → runScan p = some s →
      s.invalid = true →
      TransformRegExp p = some ([], s.errors.head?) ∧ s.errors ≠ [] ∧
        ∃ e, e ∈ s.errors ∧ InvalidKind e) ∧
    TransformRegExp [40, 97, 98, 99] = some ([], some RErr.unterminatedGroup) ∧
    TransformRegExp [91, 97, 98, 99] = some ([], some RErr.unterminatedClass) := by
  refine ⟨?_, by decide, by decide⟩
  intro p s hne hrun hinv
  obtain ⟨e, he, hk⟩ := runScan_invalid_kind p s hrun hinv
  refine ⟨?_, ?_, ⟨e, he, hk⟩⟩
  · rw [transform_of_run p s hne hrun, if_pos hinv]
  · intro hnil
    rw [hnil] at he
    exact absurd he (List.not_mem_nil e)

/-- A state reached by scanning the pattern (abc: used to instantiate the
universal part of claim C1. -/
def stateC1 : RegExpParser :=
  { str := [40, 97, 98, 99], length := 4, chr := -1, chrOffset := 4, offset := 4,
    errors := [.unterminatedGroup], invalid := true, buffer := [40, 97, 98, 99] }

theorem wC1 :
    TransformRegExp [40, 97, 98, 99] = some ([], stateC1.errors.head?) ∧
      stateC1.errors ≠ [] ∧ ∃ e, e ∈ stateC1.errors ∧ InvalidKind e :=
  thmC1.1 [40, 97, 98, 99] stateC1 (by decide) (by decide) (by decide)

/-- Does an error mention the lookahead incompatibility? -/
def isLookaheadErr : RErr → Bool
  | .lookahead _ => true
  | _ => false

/-- Has the scan recorded a lookahead diagnostic?  Since the peek at a
group opening (regexp.go:88-95) is the one site that raises it, this is
the code's notion of the pattern containing (?= or (?! at a group
opening. -/
def lookRecorded (l : List RErr) : Bool := l.any isLookaheadErr

theorem lookRecorded_rune (l : List RErr) :
    lookRecorded (l ++ [.runeError]) = lookRecorded l := by
  simp [lookRecorded, isLookaheadErr]

theorem lookRecorded_backref1 (l : List RErr) (v : Int) :
    lookRecorded (l ++ [.backrefSingle v]) = lookRecorded l := by
  simp [lookRecorded, isLookaheadErr]

theorem lookRecorded_backrefM (l : List RErr) (ds : List Nat) :
    lookRecorded (l ++ [.backrefMulti ds]) = lookRecorded l := by
  simp [lookRecorded, isLookaheadErr]

theorem lookRecorded_illegal (l : List RErr) :
    lookRecorded (l ++ [.illegalBranch]) = lookRecorded l := by
  simp [lookRecorded, isLookaheadErr]

theorem lookRecorded_unParen (l : List RErr) :
    lookRecorded (l ++ [.unmatchedParen]) = lookRecorded l := by
  simp [lookRecorded, isLookaheadErr]

theorem lookRecorded_unClass (l : List RErr) :
    lookRecorded (l ++ [.unterminatedClass]) = lookRecorded l := by
  simp [lookRecorded, isLookaheadErr]

/-- read records at most a RuneError diagnostic, never a lookahead one. -/
theorem read_look (s : RegExpParser) :
    lookRecorded (read s).errors = lookRecorded s.errors := by
  rw [read]
  split
  · dsimp only
    split
    · exact lookRecorded_rune s.errors
    · rfl
  · rfl

theorem pass_look (s : RegExpParser) :
    lookRecorded (pass s).errors = lookRecorded s.errors := by
  rw [pass]
  split
  · rw [read_look]
  · rw [read_look]

theorem pass_buffer (s : RegExpParser) : ∃ d, (pass s).buffer = s.buffer ++ d :=
  (step_pass s).2.2.2.1

theorem pass_buffer_ne (s : RegExpParser) (h : s.chr ≠ -1) :
    (pass s).buffer = s.buffer ++ utf8Encode s.chr := by
  rw [pass, if_pos h, read_buffer]

theorem lookaheadCheck_buffer (s : RegExpParser) :
    (lookaheadCheck s).buffer = s.buffer := by
  rw [lookaheadCheck]
  rcases hd : s.str.drop s.chrOffset with _ | ⟨b0, rest⟩
  · rfl
  · rcases rest with _ | ⟨b1, t⟩
    · rfl
    · dsimp only
      split
      · rfl
      · rfl

theorem finishGroup_buffer (s1 : RegExpParser) :
    ∃ d, (finishGroup s1).buffer = s1.buffer ++ d := by
  rw [finishGroup]
  split
  · exact ⟨[], by simp⟩
  · exact pass_buffer s1

theorem octalLoop_look : ∀ fuel (v : Int) (n : Nat) (s : RegExpParser)
    (v' : Int) (n' : Nat) (s' : RegExpParser),
    octalLoop fuel v n s = some (v', n', s') →
    lookRecorded s'.errors = lookRecorded s.errors ∧ s'.buffer = s.buffer := by
  intro fuel
  induction fuel with
  | zero =>
    intro v n s v' n' s' h
    rw [octalLoop] at h
    exact Option.noConfusion h
  | succ f ih =>
    intro v n s v' n' s' h
    rw [octalLoop] at h
    try dsimp only at h
    split at h
    · rw [Option.some_inj, Prod.mk.injEq, Prod.mk.injEq] at h
      obtain ⟨-, -, hs⟩ := h
      subst hs
      exact ⟨rfl, rfl⟩
    · have hrec := ih _ _ (read s) v' n' s' h
      exact ⟨hrec.1.trans (read_look s), hrec.2.trans (read_buffer s)⟩

theorem dec89Loop_look : ∀ fuel (n : Nat) (s : RegExpParser)
    (n' : Nat) (s' : RegExpParser),
    dec89Loop fuel n s = some (n', s') →
    lookRecorded s'.errors = lookRecorded s.errors ∧ s'.buffer = s.buffer := by
  intro fuel
  induction fuel with
  | zero =>
    intro n s n' s' h
    rw [dec89Loop] at h
    exact Option.noConfusion h
  | succ f ih =>
    intro n s n' s' h
    rw [dec89Loop] at h
    split at h
    · rw [Option.some_inj, Prod.mk.injEq] at h
      obtain ⟨-, hs⟩ := h
      subst hs
      exact ⟨rfl, rfl⟩
    · have hrec := ih _ (read s) n' s' h
      exact ⟨hrec.1.trans (read_look s), hrec.2.trans (read_buffer s)⟩

theorem hexDigits_look : ∀ count base (v : Nat) (s : RegExpParser),
    lookRecorded (hexDigits count base v s).1.errors = lookRecorded s.errors ∧
    (hexDigits count base v s).1.buffer = s.buffer := by
  intro count
  induction count with
  | zero => intro base v s; exact ⟨rfl, rfl⟩
  | succ c ih =>
    intro base v s
    rw [hexDigits]
    try dsimp only
    split
    · exact ⟨rfl, rfl⟩
    · have hrec := ih base ((v * base + digitValue s.chr) % 2 ^ 32) (read s)
      exact ⟨hrec.1.trans (read_look s), hrec.2.trans (read_buffer s)⟩

/-- scanEscape records only backreference, illegal-branch and decode
diagnostics — never a lookahead one — and only appends to the buffer. -/
theorem scanEscape_look (fuel : Nat) (inClass : Bool) (s s' : RegExpParser)
    (h : scanEscape fuel inClass s = some s') :
    lookRecorded s'.errors = lookRecorded s.errors ∧
    ∃ d, s'.buffer = s.buffer ++ d := by
  unfold scanEscape at h
  dsimp only at h
  split at h
  · -- octal case
    rcases ho : octalLoop fuel 0 0 s with _ | ⟨v, n, s1⟩
    · rw [ho] at h
      exact Option.noConfusion h
    · rw [ho] at h
      dsimp only at h
      obtain ⟨hl1, hb1⟩ := octalLoop_look fuel 0 0 s v n s1 ho
      split at h
      · split at h
        · injection h with h2
          subst h2
          constructor
          · dsimp only
            rw [lookRecorded_backref1, hl1]
          · dsimp only
            rw [hb1]
            exact suffix_exists _ _
        · injection h with h2
          subst h2
          constructor
          · exact hl1
          · dsimp only
            rw [hb1]
            exact suffix_exists _ _
      · injection h with h2
        subst h2
        constructor
        · exact hl1
        · dsimp only
          rw [hb1]
          exact suffix_exists2 _ _ _
  · split at h
    · -- 8/9 case
      rcases hd : dec89Loop fuel 0 s with _ | ⟨n, s1⟩
      · rw [hd] at h
        exact Option.noConfusion h
      · rw [hd] at h
        dsimp only at h
        injection h with h2
        subst h2
        obtain ⟨hl1, hb1⟩ := dec89Loop_look fuel 0 s n s1 hd
        constructor
        · dsimp only
          rw [lookRecorded_backrefM, hl1]
        · dsimp only
          rw [hb1]
          exact suffix_exists2 _ _ _
    · split at h
      · -- x/u case
        rcases hh : hexDigits (if s.chr = 120 then 2 else 4) 16 0 (read s)
          with ⟨s2, vo⟩
        have hlb := hexDigits_look (if s.chr = 120 then 2 else 4) 16 0 (read s)
        rw [hh] at h hlb
        dsimp only at hlb
        obtain ⟨hl2, hb2⟩ := hlb
        rcases vo with _ | v
        · dsimp only at h
          injection h with h2
          subst h2
          constructor
          · dsimp only
            rw [hl2, read_look]
          · dsimp only
            rw [hb2, read_buffer]
            exact suffix_exists _ _
        · dsimp only at h
          split at h
          · injection h with h2
            subst h2
            constructor
            · dsimp only
              rw [hl2, read_look]
            · dsimp only
              rw [hb2, read_buffer]
              exact suffix_exists _ _
          · split at h
            · injection h with h2
              subst h2
              constructor
              · dsimp only
                rw [hl2, read_look]
              · dsimp only
                rw [hb2, read_buffer]
                exact suffix_exists _ _
            · injection h with h2
              subst h2
              constructor
              · dsimp only
                rw [lookRecorded_illegal, hl2, read_look]
              · dsimp only
                rw [hb2, read_buffer]
                exact suffix_exists _ _
      · split at h
        · -- backslash-b inside a class
          injection h with h2
          subst h2
          constructor
          · rw [read_look]
          · rw [read_buffer]
            dsimp only
            exact suffix_exists _ _
        · split at h
          · -- pass-through escapes
            injection h with h2
            subst h2
            constructor
            · rw [pass_look]
            · obtain ⟨dp, hbp⟩ := pass_buffer { s with buffer := s.buffer ++ [92] }
              rw [hbp]
              dsimp only
              exact suffix_exists2 _ _ _
          · split at h
            · -- control escape
              split at h
              · injection h with h2
                subst h2
                constructor
                · rw [read_look]
                  dsimp only
                  rw [read_look]
                · rw [read_buffer]
                  dsimp only
                  rw [read_buffer]
                  exact suffix_exists2 _ _ _
              · split at h
                · injection h with h2
                  subst h2
                  constructor
                  · rw [read_look]
                    dsimp only
                    rw [read_look]
                  · rw [read_buffer]
                    dsimp only
                    rw [read_buffer]
                    exact suffix_exists2 _ _ _
                · injection h with h2
                  subst h2
                  constructor
                  · dsimp only
                    rw [read_look]
                  · dsimp only
                    rw [read_buffer]
                    exact suffix_exists _ _
            · -- default case
              split at h
              · injection h with h2
                subst h2
                constructor
                · rw [pass_look]
                · obtain ⟨dp, hbp⟩ :=
                    pass_buffer { s with buffer := s.buffer ++ [92] }
                  rw [hbp]
                  dsimp only
                  exact suffix_exists2 _ _ _
              · injection h with h2
                subst h2
                exact ⟨pass_look s, pass_buffer s⟩

/-- The bracket loop and scanBracket record at most the
unterminated-class diagnostic, never a lookahead one. -/
theorem scanBracketLoop_look : ∀ fuel (s s' : RegExpParser),
    scanBracketLoop fuel s = some s' →
    lookRecorded s'.errors = lookRecorded s.errors ∧
    ∃ d, s'.buffer = s.buffer ++ d := by
  intro fuel
  induction fuel with
  | zero =>
    intro s s' h
    rw [scanBracketLoop] at h
    exact Option.noConfusion h
  | succ f ih =>
    intro s s' h
    rw [scanBracketLoop] at h
    split at h
    · injection h with h2
      subst h2
      exact ⟨rfl, ⟨[], by simp⟩⟩
    · split at h
      · injection h with h2
        subst h2
        exact ⟨rfl, ⟨[], by simp⟩⟩
      · split at h
        · rw [Option.bind_eq_some] at h
          obtain ⟨s1, he, hl⟩ := h
          obtain ⟨hel, d1, hb1⟩ := scanEscape_look f true (read s) s1 he
          obtain ⟨hel2, d2, hb2⟩ := ih s1 s' hl
          refine ⟨?_, ⟨d1 ++ d2, ?_⟩⟩
          · rw [hel2, hel, read_look]
          · rw [hb2, hb1, read_buffer]
            simp
        · obtain ⟨hel2, d2, hb2⟩ := ih (pass s) s' h
          obtain ⟨dp, hbp⟩ := pass_buffer s
          refine ⟨?_, ⟨dp ++ d2, ?_⟩⟩
          · rw [hel2, pass_look]
          · rw [hb2, hbp]
            simp

theorem scanBracket_look (fuel : Nat) (s s' : RegExpParser)
    (h : scanBracket fuel s = some s') :
    lookRecorded s'.errors = lookRecorded s.errors ∧
    ∃ d, s'.buffer = s.buffer ++ d := by
  rw [scanBracket, Option.map_eq_some'] at h
  obtain ⟨s1, hl, hs2⟩ := h
  obtain ⟨hel, d1, hb1⟩ := scanBracketLoop_look fuel s s1 hl
  subst hs2
  try dsimp only
  split
  · constructor
    · dsimp only
      rw [lookRecorded_unClass, hel]
    · dsimp only
      exact ⟨d1, hb1⟩
  · constructor
    · rw [pass_look, hel]
    · obtain ⟨dp, hbp⟩ := pass_buffer s1
      rw [hbp, hb1]
      exact suffix_exists2 _ _ _

/-- Through the group loop the buffer only grows, and a lookahead
diagnostic present at the end was either already present at entry or was
recorded after an opening parenthesis had been emitted, so the buffer is
non-empty. -/
theorem scanGroupLoop_look : ∀ fuel (s s' : RegExpParser),
    scanGroupLoop fuel s = some s' →
    (∃ d, s'.buffer = s.buffer ++ d) ∧
    (lookRecorded s'.errors = true →
      lookRecorded s.errors = true ∨ s'.buffer ≠ []) := by
  intro fuel
  induction fuel with
  | zero =>
    intro s s' h
    rw [scanGroupLoop] at h
    exact Option.noConfusion h
  | succ f ih =>
    intro s s' h
    rw [scanGroupLoop] at h
    split at h
    · injection h with h2
      subst h2
      exact ⟨⟨[], by simp⟩, fun hl => Or.inl hl⟩
    · split at h
      · rw [Option.bind_eq_some] at h
        obtain ⟨s1, he, hl⟩ := h
        obtain ⟨hel, d1, hb1⟩ := scanEscape_look f false (read s) s1 he
        obtain ⟨⟨d2, hb2⟩, hlk⟩ := ih s1 s' hl
        refine ⟨⟨d1 ++ d2, by rw [hb2, hb1, read_buffer]; simp⟩, fun hl2 => ?_⟩
        rcases hlk hl2 with hl1 | hbne
        · rw [hel, read_look] at hl1
          exact Or.inl hl1
        · exact Or.inr hbne
      · split at h
        · rename_i hc40
          rw [Option.bind_eq_some] at h
          obtain ⟨t, hm, hl⟩ := h
          rw [Option.map_eq_some'] at hm
          obtain ⟨s3, hg, hft⟩ := hm
          have hchrne : s.chr ≠ -1 := by rw [hc40]; decide
          have hpb : (pass s).buffer = s.buffer ++ [40] := by
            rw [pass_buffer_ne s hchrne, hc40,
              show utf8Encode 40 = [40] from by decide]
          have hlacb : (lookaheadCheck (pass s)).buffer = s.buffer ++ [40] := by
            rw [lookaheadCheck_buffer, hpb]
          obtain ⟨⟨d3, hb3⟩, -⟩ := ih (lookaheadCheck (pass s)) s3 hg
          obtain ⟨df, hbf⟩ := finishGroup_buffer s3
          subst hft
          obtain ⟨⟨d4, hb4⟩, -⟩ := ih (finishGroup s3) s' hl
          have hbig : s'.buffer = s.buffer ++ ([40] ++ d3 ++ df ++ d4) := by
            rw [hb4, hbf, hb3, hlacb]
            simp
          refine ⟨⟨_, hbig⟩, fun hl2 => Or.inr ?_⟩
          rw [hbig]
          simp
        · split at h
          · rename_i hc91
            rw [Option.bind_eq_some] at h
            obtain ⟨s1, hbr, hl⟩ := h
            have hchrne : s.chr ≠ -1 := by rw [hc91]; decide
            have hpb : (pass s).buffer = s.buffer ++ [91] := by
              rw [pass_buffer_ne s hchrne, hc91,
                show utf8Encode 91 = [91] from by decide]
            obtain ⟨hel1, d1, hb1⟩ := scanBracket_look f (pass s) s1 hbr
            obtain ⟨⟨d2, hb2⟩, hlk⟩ := ih s1 s' hl
            have hbig : s'.buffer = s.buffer ++ ([91] ++ d1 ++ d2) := by
              rw [hb2, hb1, hpb]
              simp
            refine ⟨⟨_, hbig⟩, fun hl2 => Or.inr ?_⟩
            rw [hbig]
            simp
          · obtain ⟨⟨d2, hb2⟩, hlk⟩ := ih (pass s) s' h
            obtain ⟨dp, hbp⟩ := pass_buffer s
            refine ⟨⟨dp ++ d2, by rw [hb2, hbp]; simp⟩, fun hl2 => ?_⟩
            rcases hlk hl2 with hl1 | hbne
            · rw [pass_look] at hl1
              exact Or.inl hl1
            · exact Or.inr hbne

/-- Through the top-level scan loop the buffer only grows, and a
lookahead diagnostic present at the end was either already present at
entry or the buffer ends non-empty (the opening parenthesis of the group
that raised it was emitted first). -/
theorem scanLoop_look : ∀ fuel (s s' : RegExpParser),
    scanLoop fuel s = some s' →
    (∃ d, s'.buffer = s.buffer ++ d) ∧
    (lookRecorded s'.errors = true →
      lookRecorded s.errors = true ∨ s'.buffer ≠ []) := by
  intro fuel
  induction fuel with
  | zero =>
    intro s s' h
    rw [scanLoop] at h
    exact Option.noConfusion h
  | succ f ih =>
    intro s s' h
    rw [scanLoop] at h
    split at h
    · injection h with h2
      subst h2
      exact ⟨⟨[], by simp⟩, fun hl => Or.inl hl⟩
    · split at h
      · rw [Option.bind_eq_some] at h
        obtain ⟨s1, he, hl⟩ := h
        obtain ⟨hel, d1, hb1⟩ := scanEscape_look f false (read s) s1 he
        obtain ⟨⟨d2, hb2⟩, hlk⟩ := ih s1 s' hl
        refine ⟨⟨d1 ++ d2, by rw [hb2, hb1, read_buffer]; simp⟩, fun hl2 => ?_⟩
        rcases hlk hl2 with hl1 | hbne
        · rw [hel, read_look] at hl1
          exact Or.inl hl1
        · exact Or.inr hbne
      · split at h
        · rename_i hc40
          rw [Option.bind_eq_some] at h
          obtain ⟨t, hg2, hl⟩ := h
          rw [scanGroup, Option.map_eq_some'] at hg2
          obtain ⟨s3, hg, hft⟩ := hg2
          have hchrne : s.chr ≠ -1 := by rw [hc40]; decide
          have hpb : (pass s).buffer = s.buffer ++ [40] := by
            rw [pass_buffer_ne s hchrne, hc40,
              show utf8Encode 40 = [40] from by decide]
          have hlacb : (lookaheadCheck (pass s)).buffer = s.buffer ++ [40] := by
            rw [lookaheadCheck_buffer, hpb]
          obtain ⟨⟨d3, hb3⟩, -⟩ := scanGroupLoop_look f (lookaheadCheck (pass s)) s3 hg
          obtain ⟨df, hbf⟩ := finishGroup_buffer s3
          subst hft
          obtain ⟨⟨d4, hb4⟩, -⟩ := ih (finishGroup s3) s' hl
          have hbig : s'.buffer = s.buffer ++ ([40] ++ d3 ++ df ++ d4) := by
            rw [hb4, hbf, hb3, hlacb]
            simp
          refine ⟨⟨_, hbig⟩, fun hl2 => Or.inr ?_⟩
          rw [hbig]
          simp
        · split at h
          · rename_i hc91
            rw [Option.bind_eq_some] at h
            obtain ⟨s1, hbr, hl⟩ := h
            have hchrne : s.chr ≠ -1 := by rw [hc91]; decide
            have hpb : (pass s).buffer = s.buffer ++ [91] := by
              rw [pass_buffer_ne s hchrne, hc91,
                show utf8Encode 91 = [91] from by decide]
            obtain ⟨hel1, d1, hb1⟩ := scanBracket_look f (pass s) s1 hbr
            obtain ⟨⟨d2, hb2⟩, hlk⟩ := ih s1 s' hl
            have hbig : s'.buffer = s.buffer ++ ([91] ++ d1 ++ d2) := by
              rw [hb2, hb1, hpb]
              simp
            refine ⟨⟨_, hbig⟩, fun hl2 => Or.inr ?_⟩
            rw [hbig]
            simp
          · split at h
            · obtain ⟨⟨d2, hb2⟩, hlk⟩ := ih
                (pass { s with
                  errors := s.errors ++ [RErr.unmatchedParen]
                  invalid := true }) s' h
              obtain ⟨dp, hbp⟩ := pass_buffer
                { s with
                  errors := s.errors ++ [RErr.unmatchedParen]
                  invalid := true }
              refine ⟨⟨dp ++ d2, by rw [hb2, hbp]; simp⟩, fun hl2 => ?_⟩
              rcases hlk hl2 with hl1 | hbne
              · rw [pass_look] at hl1
                dsimp only at hl1
                rw [lookRecorded_unParen] at hl1
                exact Or.inl hl1
              · exact Or.inr hbne
            · obtain ⟨⟨d2, hb2⟩, hlk⟩ := ih (pass s) s' h
              obtain ⟨dp, hbp⟩ := pass_buffer s
              refine ⟨⟨dp ++ d2, by rw [hb2, hbp]; simp⟩, fun hl2 => ?_⟩
              rcases hlk hl2 with hl1 | hbne
              · rw [pass_look] at hl1
                exact Or.inl hl1
              · exact Or.inr hbne

/-- Counterexample to claim C2 as stated: the pattern backslash-1-(?=x)
contains (?= at a group opening and the scan does not set the invalid
flag (it is otherwise valid in the code's sense), yet the error returned
by TransformRegExp is the earlier backreference diagnostic, which does
not mention lookahead; the lookahead error is only second in the list. -/
theorem cexC2 :
    TransformRegExp [92, 49, 40, 63, 61, 120, 41] =
      some ([92, 49, 40, 63, 61, 120, 41], some (RErr.backrefSingle 1)) ∧
    (runScan [92, 49, 40, 63, 61, 120, 41]).map RegExpParser.invalid = some false ∧
    (runScan [92, 49, 40, 63, 61, 120, 41]).map RegExpParser.errors =
      some [RErr.backrefSingle 1, RErr.lookahead [63, 61]] ∧
    isLookaheadErr (RErr.backrefSingle 1) = false := by
  refine ⟨by decide, by decide, by decide, rfl⟩

/-- Claim C2, amended: the two-byte peek at a group opening records the
lookahead diagnostic exactly when it reads ?= or ?!, appending only that
diagnostic — in particular never touching the invalid flag; for every
pattern whose scan records a lookahead diagnostic (the peek at a group
opening is the one site that raises it) without setting the invalid
flag, TransformRegExp returns the non-empty rewrite together with the
first recorded error, which is non-nil but mentions lookahead only when
no earlier incompatibility was recorded (see the counterexample); the
patterns (?=x), (?!x) and a(?=x) are rewritten to themselves with the
lookahead diagnostic as their first error. -/
theorem thmC2 :
    (∀ (s : RegExpParser) (b0 b1 : Nat) (t : List Nat),
      s.str.drop s.chrOffset = b0 :: b1 :: t → b0 = 63 → (b1 = 61 ∨ b1 = 33) →
      lookaheadCheck s = { s with errors := s.errors ++ [.lookahead [b0, b1]] }) ∧
    (∀ (s : RegExpParser),
      (∀ (b0 b1 : Nat) (t : List Nat), s.str.drop s.chrOffset = b0 :: b1 :: t →
        ¬(b0 = 63 ∧ (b1 = 61 ∨ b1 = 33))) →
      lookaheadCheck s = s) ∧
    (∀ (p : List Nat) (s : RegExpParser),
      runScan p = some s → lookRecorded s.errors = true → s.invalid = false →
      TransformRegExp p = some (s.buffer, s.errors.head?) ∧ s.buffer ≠ [] ∧
        s.errors.head? ≠ none) ∧
    TransformRegExp [40, 63, 61, 120, 41] =
      some ([40, 63, 61, 120, 41], some (RErr.lookahead [63, 61])) ∧
    TransformRegExp [40, 63, 33, 120, 41] =
      some ([40, 63, 33, 120, 41], some (RErr.lookahead [63, 33])) ∧
    TransformRegExp [97, 40, 63, 61, 120, 41] =
      some ([97, 40, 63, 61, 120, 41], some (RErr.lookahead [63, 61])) := by
  refine ⟨?_, ?_, ?_, by decide, by decide, by decide⟩
  · intro s b0 b1 t hdrop hb0 hb1
    rw [lookaheadCheck, hdrop]
    dsimp only
    rw [if_pos ⟨hb0, hb1⟩]
  · intro s hno
    rw [lookaheadCheck]
    rcases hd : s.str.drop s.chrOffset with _ | ⟨b0, rest⟩
    · rfl
    · rcases rest with _ | ⟨b1, t⟩
      · rfl
      · dsimp only
        rw [if_neg (hno b0 b1 t hd)]
  · intro p s hrun hlook hinv
    by_cases hp : p = []
    · subst hp
      have h0 : runScan ([] : List Nat) = some
          { str := []
            length := 0
            chr := -1
            chrOffset := 0
            offset := 0
            errors := []
            invalid := false
            buffer := [] } := by decide
      rw [h0, Option.some_inj] at hrun
      rw [← hrun] at hlook
      exact absurd hlook (by decide)
    · have hrun2 : scanLoop (p.length + 2) (read (initRegExpParser p)) = some s :=
        hrun
      obtain ⟨-, hlk⟩ :=
        scanLoop_look (p.length + 2) (read (initRegExpParser p)) s hrun2
      have hinit : lookRecorded (read (initRegExpParser p)).errors = false := by
        rw [read_look]
        rfl
      have hbuf : s.buffer ≠ [] := by
        rcases hlk hlook with hc | hb
        · rw [hinit] at hc
          exact absurd hc (by decide)
        · exact hb
      refine ⟨?_, hbuf, ?_⟩
      · rw [transform_of_run p s hp hrun, if_neg (by simp [hinv])]
      · cases he : s.errors
        · rw [he] at hlook
          exact absurd hlook (by decide)
        · simp [he]

/-- A state used to instantiate the closed parts of claim C2: the result
of scanning the pattern (?=x). -/
def stateC2 : RegExpParser :=
  { str := [40, 63, 61, 120, 41], length := 5, chr := -1, chrOffset := 5,
    offset := 5, errors := [.lookahead [63, 61]], invalid := false,
    buffer := [40, 63, 61, 120, 41] }

theorem wC2 :
    TransformRegExp [40, 63, 61, 120, 41] =
      some (stateC2.buffer, stateC2.errors.head?) ∧ stateC2.buffer ≠ [] ∧
      stateC2.errors.head? ≠ none :=
  thmC2.2.2.1 [40, 63, 61, 120, 41] stateC2 (by decide) (by decide) (by decide)

theorem drop_succ_of_drop (l : List Nat) (o a : Nat) (t : List Nat)
    (h : l.drop o = a :: t) : l.drop (o + 1) = t := by
  have h1 := List.drop_drop 1 o l
  rw [h] at h1
  simp at h1
  exact h1.symm

theorem getD_of_drop (l : List Nat) (o a : Nat) (t : List Nat)
    (h : l.drop o = a :: t) : l.getD o 0 = a := by
  have h0 : l[o]? = some a := by
    have h1 := List.getElem?_drop l o 0
    rw [h] at h1
    simpa using h1.symm
  simp [List.getD, h0]

theorem digitValue_lt16_byte (b : Nat) (h : digitValue (b : Int) < 16) :
    b < 0x80 := by
  rw [digitValue] at h
  split_ifs at h <;> omega

/-- Claim C7: an escape of a single non-zero octal digit (the current
rune is 1 through 7 and the rune after it is not an octal digit, with no
decode diagnostic from the following read) is preserved verbatim in the
output, records the backreference diagnostic, and does not set the
invalid flag; in particular TransformRegExp of backslash-1 returns the
non-empty string backslash-1 together with that diagnostic. -/
theorem thmC7 :
    (∀ (fuel : Nat) (s : RegExpParser),
      49 ≤ s.chr → s.chr ≤ 55 →
      8 ≤ digitValue (read s).chr →
      (read s).errors = s.errors →
      ∃ s', scanEscape (fuel + 2) false s = some s' ∧
        s'.buffer = s.buffer ++ [92, s.chr.toNat] ∧
        s'.errors = s.errors ++ [.backrefSingle (s.chr - 48)] ∧
        s'.invalid = s.invalid ∧ s'.buffer ≠ []) ∧
    TransformRegExp [92, 49] = some ([92, 49], some (RErr.backrefSingle 1)) := by
  refine ⟨?_, by decide⟩
  intro fuel s h1 h2 hstop hclean
  have hd0 : (digitValue s.chr : Int) = s.chr - 48 :=
    digitValue_octal s.chr (by omega) h2
  have hdig0 : digitValue s.chr < 8 := by omega
  rw [scanEscape]
  dsimp only
  rw [if_pos (⟨by omega, h2⟩ : 48 ≤ s.chr ∧ s.chr ≤ 55)]
  rw [octalLoop_step (fuel + 1) 0 0 s hdig0, octalLoop_stop _ _ _ _ hstop]
  dsimp only
  rw [if_pos rfl]
  have hval : wrap64 (0 * 8 + (digitValue s.chr : Int)) = s.chr - 48 := by
    rw [hd0]
    rw [show (0 : Int) * 8 + (s.chr - 48) = s.chr - 48 by ring]
    exact wrap64_small _ (by omega) (by omega)
  rw [hval, if_pos (by omega : s.chr - 48 ≠ 0)]
  refine ⟨_, rfl, ?_, ?_, ?_, ?_⟩
  · dsimp only
    rw [read_buffer]
    have : ((s.chr - 48).toNat % 256 + 48) % 256 = s.chr.toNat := by omega
    rw [this]
  · dsimp only
    rw [hclean]
  · dsimp only
    rw [read_invalid]
  · dsimp only
    rw [read_buffer]
    simp

/-- A state used to instantiate the universal part of claim C7: about to
scan the digit of backslash-1 in the pattern backslash-1. -/
def stateC7 : RegExpParser :=
  { str := [92, 49], length := 2, chr := 49, chrOffset := 1, offset := 2,
    errors := [], invalid := false, buffer := [] }

theorem wC7 :
    ∃ s', scanEscape (0 + 2) false stateC7 = some s' ∧
      s'.buffer = stateC7.buffer ++ [92, stateC7.chr.toNat] ∧
      s'.errors = stateC7.errors ++ [.backrefSingle (stateC7.chr - 48)] ∧
      s'.invalid = stateC7.invalid ∧ s'.buffer ≠ [] :=
  thmC7.1 0 stateC7 (by decide) (by decide) (by decide) (by decide)

/-- Counterexample to claim C6 as stated: the three-octal-digit escape
backslash-7-7-7 (octal value 511) is rewritten to the five bytes
backslash-x-1-f-f, which is not the four-byte two-hex-digit form
backslash-x-H-H the claim promises. -/
theorem cexC6 :
    TransformRegExp [92, 55, 55, 55] = some ([92, 120, 49, 102, 102], none) ∧
    ([92, 120, 49, 102, 102] : List Nat).length ≠ 4 := by decide

/-- Claim C6 (amended): an escape of exactly two octal digits (the current
rune and the one after it are octal digits, the one after that is not,
and the two reads report no decode diagnostic) is rewritten to
backslash-x followed by the lowercase hex digits of the octal value,
zero-padded to two digits when the value is below 16 (three hex digits
appear for values 256 through 511, as the counterexample shows), with no
error recorded and the invalid flag unchanged; in particular
TransformRegExp of backslash-0-1 is backslash-x-0-1 and TransformRegExp
of backslash-7-7 is backslash-x-3-f, each with no error. -/
theorem thmC6 :
    (∀ (fuel : Nat) (inClass : Bool) (s : RegExpParser),
      48 ≤ s.chr → s.chr ≤ 55 →
      digitValue (read s).chr < 8 →
      8 ≤ digitValue (read (read s)).chr →
      (read s).errors = s.errors →
      (read (read s)).errors = (read s).errors →
      ∃ s', scanEscape (fuel + 3) inClass s = some s' ∧
        s'.buffer = s.buffer ++
          (if 16 ≤ (s.chr - 48) * 8 + ((read s).chr - 48) then [92, 120]
           else [92, 120, 48]) ++
          goHexBytes ((s.chr - 48) * 8 + ((read s).chr - 48)) ∧
        s'.errors = s.errors ∧
        s'.invalid = s.invalid) ∧
    TransformRegExp [92, 48, 49] = some ([92, 120, 48, 49], none) ∧
    TransformRegExp [92, 55, 55] = some ([92, 120, 51, 102], none) := by
  refine ⟨?_, by decide, by decide⟩
  intro fuel inClass s h1 h2 hd2 hstop hclean1 hclean2
  have hd1v : (digitValue s.chr : Int) = s.chr - 48 := digitValue_octal s.chr h1 h2
  have hdig1 : digitValue s.chr < 8 := by omega
  have hrange2 : 48 ≤ (read s).chr ∧ (read s).chr ≤ 55 := by
    have h := hd2
    rw [digitValue] at h
    split_ifs at h <;> omega
  have hd2v : (digitValue (read s).chr : Int) = (read s).chr - 48 :=
    digitValue_octal _ hrange2.1 hrange2.2
  rw [scanEscape]
  dsimp only
  rw [if_pos (⟨h1, h2⟩ : 48 ≤ s.chr ∧ s.chr ≤ 55)]
  rw [octalLoop_step (fuel + 2) 0 0 s hdig1,
      octalLoop_step (fuel + 1) _ _ (read s) hd2,
      octalLoop_stop fuel _ _ _ hstop]
  dsimp only
  rw [if_neg (by decide : ¬(0 + 1 + 1 = 1))]
  have hval : wrap64 (wrap64 (0 * 8 + (digitValue s.chr : Int)) * 8 +
        (digitValue (read s).chr : Int)) =
      (s.chr - 48) * 8 + ((read s).chr - 48) := by
    rw [hd1v, hd2v]
    rw [show (0 : Int) * 8 + (s.chr - 48) = s.chr - 48 by ring]
    rw [wrap64_small (s.chr - 48) (by omega) (by omega)]
    exact wrap64_small _ (by omega) (by omega)
  rw [hval]
  refine ⟨_, rfl, ?_, ?_, ?_⟩
  · dsimp only
    rw [read_buffer, read_buffer]
  · dsimp only
    rw [hclean2, hclean1]
  · dsimp only
    rw [read_invalid, read_invalid]

/-- A state used to instantiate the universal part of claim C6: about to
scan the first digit of backslash-0-1 in the pattern backslash-0-1. -/
def stateC6 : RegExpParser :=
  { str := [92, 48, 49], length := 3, chr := 48, chrOffset := 1, offset := 2,
    errors := [], invalid := false, buffer := [] }

theorem wC6 :
    ∃ s', scanEscape (0 + 3) true stateC6 = some s' ∧
      s'.buffer = stateC6.buffer ++
        (if 16 ≤ (stateC6.chr - 48) * 8 + ((read stateC6).chr - 48) then [92, 120]
         else [92, 120, 48]) ++
        goHexBytes ((stateC6.chr - 48) * 8 + ((read stateC6).chr - 48)) ∧
      s'.errors = stateC6.errors ∧
      s'.invalid = stateC6.invalid :=
  thmC6.1 0 true stateC6 (by decide) (by decide) (by decide) (by decide)
    (by decide) (by decide)

/-- Claim C8: an escape backslash-u whose four following bytes are hex
digits (and whose trailing read hits end of input or an ASCII byte) is
rewritten to backslash-x-left-brace, the four original source digits,
right-brace, with the errors and the invalid flag unchanged; in
particular TransformRegExp of backslash-u-0-0-4-1 is
backslash-x-brace-0-0-4-1-brace with no error. -/
theorem thmC8 :
    (∀ (fuel : Nat) (s : RegExpParser) (a1 a2 a3 a4 : Nat) (t : List Nat),
      s.length = s.str.length →
      s.chr = 117 →
      s.str.drop s.offset = a1 :: a2 :: a3 :: a4 :: t →
      digitValue (a1 : Int) < 16 → digitValue (a2 : Int) < 16 →
      digitValue (a3 : Int) < 16 → digitValue (a4 : Int) < 16 →
      (t = [] ∨ ∃ b t2, t = b :: t2 ∧ b < 0x80) →
      ∃ s', scanEscape fuel false s = some s' ∧
        s'.buffer = s.buffer ++ [92, 120, 123, a1, a2, a3, a4, 125] ∧
        s'.errors = s.errors ∧ s'.invalid = s.invalid) ∧
    TransformRegExp [92, 117, 48, 48, 52, 49] =
      some ([92, 120, 123, 48, 48, 52, 49, 125], none) := by
  refine ⟨?_, by decide⟩
  intro fuel s a1 a2 a3 a4 t hlen hchr hdrop hd1 hd2 hd3 hd4 ht
  have hb1 : a1 < 0x80 := digitValue_lt16_byte a1 hd1
  have hb2 : a2 < 0x80 := digitValue_lt16_byte a2 hd2
  have hb3 : a3 < 0x80 := digitValue_lt16_byte a3 hd3
  have hb4 : a4 < 0x80 := digitValue_lt16_byte a4 hd4
  have hdrop2 : s.str.drop (s.offset + 1) = a2 :: a3 :: a4 :: t :=
    drop_succ_of_drop _ _ _ _ hdrop
  have hdrop3 : s.str.drop (s.offset + 2) = a3 :: a4 :: t :=
    drop_succ_of_drop _ _ _ _ hdrop2
  have hdrop4 : s.str.drop (s.offset + 3) = a4 :: t :=
    drop_succ_of_drop _ _ _ _ hdrop3
  have hdrop5 : s.str.drop (s.offset + 4) = t :=
    drop_succ_of_drop _ _ _ _ hdrop4
  have hs1 : read s =
      { s with chrOffset := s.offset, offset := s.offset + 1, chr := (a1 : Int) } :=
    read_ascii s a1 _ hlen hdrop hb1
  have hs2 : read { s with
        chrOffset := s.offset
        offset := s.offset + 1
        chr := (a1 : Int) } =
      { s with
        chrOffset := s.offset + 1
        offset := s.offset + 2
        chr := (a2 : Int) } :=
    read_ascii _ a2 _ hlen hdrop2 hb2
  have hs3 : read { s with
        chrOffset := s.offset + 1
        offset := s.offset + 2
        chr := (a2 : Int) } =
      { s with
        chrOffset := s.offset + 2
        offset := s.offset + 3
        chr := (a3 : Int) } :=
    read_ascii _ a3 _ hlen hdrop3 hb3
  have hs4 : read { s with
        chrOffset := s.offset + 2
        offset := s.offset + 3
        chr := (a3 : Int) } =
      { s with
        chrOffset := s.offset + 3
        offset := s.offset + 4
        chr := (a4 : Int) } :=
    read_ascii _ a4 _ hlen hdrop4 hb4
  have herr5 : (read { s with
        chrOffset := s.offset + 3
        offset := s.offset + 4
        chr := (a4 : Int) }).errors = s.errors := by
    rcases ht with ht | ⟨b, t2, htb, hblt⟩
    · rw [read_at_eof
        { s with
          chrOffset := s.offset + 3
          offset := s.offset + 4
          chr := (a4 : Int) } hlen (by try dsimp only; rw [hdrop5, ht])]
    · rw [read_ascii
        { s with
          chrOffset := s.offset + 3
          offset := s.offset + 4
          chr := (a4 : Int) } b t2 hlen (by try dsimp only; rw [hdrop5, htb]) hblt]
  rw [scanEscape]
  dsimp only
  rw [if_neg (by rw [hchr]; decide), if_neg (by rw [hchr]; decide),
      if_pos (Or.inr hchr), if_neg (by rw [hchr]; decide)]
  rw [hs1]
  rw [hexDigits_step 3 16 0
    { s with chrOffset := s.offset, offset := s.offset + 1, chr := (a1 : Int) } hd1]
  rw [hs2]
  rw [hexDigits_step 2 16 _
    { s with
      chrOffset := s.offset + 1
      offset := s.offset + 2
      chr := (a2 : Int) } hd2]
  rw [hs3]
  rw [hexDigits_step 1 16 _
    { s with
      chrOffset := s.offset + 2
      offset := s.offset + 3
      chr := (a3 : Int) } hd3]
  rw [hs4]
  rw [hexDigits_step 0 16 _
    { s with
      chrOffset := s.offset + 3
      offset := s.offset + 4
      chr := (a4 : Int) } hd4]
  rw [hexDigits]
  dsimp only
  rw [if_pos rfl]
  refine ⟨_, rfl, ?_, ?_, ?_⟩
  · dsimp only
    rw [read_buffer, read_str]
    dsimp only
    rw [getD_of_drop _ _ _ _ hdrop, getD_of_drop _ _ _ _ hdrop2,
        getD_of_drop _ _ _ _ hdrop3, getD_of_drop _ _ _ _ hdrop4]
  · dsimp only
    exact herr5
  · dsimp only
    rw [read_invalid]

/-- A state used to instantiate the universal part of claim C8: about to
scan the u of backslash-u-0-0-4-1 in that pattern. -/
def stateC8 : RegExpParser :=
  { str := [92, 117, 48, 48, 52, 49], length := 6, chr := 117, chrOffset := 1,
    offset := 2, errors := [], invalid := false, buffer := [] }

theorem wC8 :
    ∃ s', scanEscape 0 false stateC8 = some s' ∧
      s'.buffer = stateC8.buffer ++ [92, 120, 123, 48, 48, 52, 49, 125] ∧
      s'.errors = stateC8.errors ∧ s'.invalid = stateC8.invalid :=
  thmC8.1 0 stateC8 48 48 52 49 [] (by decide) (by decide) (by decide)
    (by decide) (by decide) (by decide) (by decide) (Or.inl rfl)

/-- Claim C9: when the escaped rune is b and the trailing read reports no
decode diagnostic, scanEscape inside a class emits backslash-x-0-8 and at
top level emits backslash-b unchanged, in both cases leaving the errors
and the invalid flag untouched; in particular TransformRegExp of
left-bracket-backslash-b-right-bracket is
left-bracket-backslash-x-0-8-right-bracket with no error, and
TransformRegExp of backslash-b is backslash-b with no error. -/
theorem thmC9 :
    (∀ (fuel : Nat) (s : RegExpParser),
      s.chr = 98 →
      (read s).errors = s.errors →
      (∃ s', scanEscape fuel true s = some s' ∧
        s'.buffer = s.buffer ++ [92, 120, 48, 56] ∧
        s'.errors = s.errors ∧ s'.invalid = s.invalid) ∧
      (∃ s', scanEscape fuel false s = some s' ∧
        s'.buffer = s.buffer ++ [92, 98] ∧
        s'.errors = s.errors ∧ s'.invalid = s.invalid)) ∧
    TransformRegExp [91, 92, 98, 93] = some ([91, 92, 120, 48, 56, 93], none) ∧
    TransformRegExp [92, 98] = some ([92, 98], none) := by
  refine ⟨?_, by decide, by decide⟩
  intro fuel s hchr hclean
  have hu : utf8Encode 98 = [98] := by decide
  constructor
  · rw [scanEscape]
    dsimp only
    rw [if_neg (by rw [hchr]; decide), if_neg (by rw [hchr]; decide),
        if_neg (by rw [hchr]; decide), if_pos (⟨hchr, rfl⟩ : s.chr = 98 ∧ true = true)]
    refine ⟨_, rfl, ?_, ?_, ?_⟩
    · rw [read_buffer_comm]
    · rw [read_buffer_comm]
      exact hclean
    · rw [read_buffer_comm]
      dsimp only
      rw [read_invalid]
  · rw [scanEscape]
    dsimp only
    rw [if_neg (by rw [hchr]; decide), if_neg (by rw [hchr]; decide),
        if_neg (by rw [hchr]; decide), if_neg (by rw [hchr]; decide),
        if_pos (Or.inl hchr)]
    rw [pass]
    dsimp only
    rw [if_pos (show s.chr ≠ -1 by rw [hchr]; decide)]
    rw [show utf8Encode s.chr = [98] by rw [hchr]; exact hu]
    rw [read_buffer_comm]
    refine ⟨_, rfl, ?_, ?_, ?_⟩
    · dsimp only
      simp
    · dsimp only
      exact hclean
    · dsimp only
      rw [read_invalid]

/-- A state used to instantiate the universal part of claim C9: about to
scan the b of backslash-b in the pattern backslash-b. -/
def stateC9 : RegExpParser :=
  { str := [92, 98], length := 2, chr := 98, chrOffset := 1, offset := 2,
    errors := [], invalid := false, buffer := [] }

theorem wC9 :
    ((∃ s', scanEscape 0 true stateC9 = some s' ∧
        s'.buffer = stateC9.buffer ++ [92, 120, 48, 56] ∧
        s'.errors = stateC9.errors ∧ s'.invalid = stateC9.invalid) ∧
      (∃ s', scanEscape 0 false stateC9 = some s' ∧
        s'.buffer = stateC9.buffer ++ [92, 98] ∧
        s'.errors = stateC9.errors ∧ s'.invalid = stateC9.invalid)) :=
  thmC9.1 0 stateC9 (by decide) (by decide)

/-- Claim C3: the claim fails on the code as written.  _newParser drops
its filename parameter (the struct literal never assigns the field), so
every parser state carries the empty filename, every recorded error
renders with the (anonymous) substitution, and the rendering for a file
parsed under the name test.js is not the claimed test.js-prefixed string. -/
theorem thmC3 :
    (∀ (F : String) (src : List Nat) (base : Nat),
      (newParserBase F src base).filename = "") ∧
    (∀ (F : String) (src : List Nat) (base place : Nat) (msg : String),
      (parserErrorAtIdx (newParserBase F src base) place msg).1.position.filename
        = "") ∧
    (parserErrorAtIdx (newParser "test.js" [64]) 0
        "Unexpected token ILLEGAL").1.render =
      "(anonymous): Line 1:1 Unexpected token ILLEGAL" ∧
    (parserErrorAtIdx (newParser "test.js" [64]) 0
        "Unexpected token ILLEGAL").1.render ≠
      "test.js: Line 1:1 Unexpected token ILLEGAL" := by
  have hlc : lineCount [] = (0, -1) := by
    rw [lineCount, lineCountAux]
  have hpos : position (newParser "test.js" [64]) 1 =
      { filename := "", line := 1, column := 1 } := by
    rw [position]
    dsimp only [newParser, newParserBase]
    rw [show (1 - 1 : Nat) = 0 from rfl, List.take_zero, hlc]
    decide
  have h1 : (parserErrorAtIdx (newParser "test.js" [64]) 0
      "Unexpected token ILLEGAL").1 =
      mkParseError (newParser "test.js" [64]) 1 "Unexpected token ILLEGAL" := rfl
  refine ⟨fun F src base => rfl, fun F src base place msg => rfl, ?_, ?_⟩
  · rw [h1, mkParseError, hpos]
    decide
  · rw [h1, mkParseError, hpos]
    decide

/-- Claim C4: parse always returns the Program built by parseProgram, the
returned error is none exactly when the accumulated error list is empty
and is otherwise its first element, and ParseFile without a file set is
parse on a fresh parser state with base one. -/
theorem thmC4 :
    (∀ p : ParserState,
      parse p = ((parseProgram (next p)).1,
        (parseProgram (next p)).2.errors.head?)) ∧
    (∀ p : ParserState,
      (parse p).2 = none ↔ (parseProgram (next p)).2.errors = []) ∧
    (∀ (F : String) (src : List Nat) (mode : Nat),
      ParseFile Option.none F src mode = parse (newParserBase F src 1)) := by
  refine ⟨?_, ?_, fun F src mode => rfl⟩
  · intro p
    rw [parse]
    try dsimp only
    rcases h : (parseProgram (next p)).2.errors with _ | ⟨e, rest⟩
    · rfl
    · rfl
  · intro p
    rw [parse]
    try dsimp only
    rcases h : (parseProgram (next p)).2.errors with _ | ⟨e, rest⟩
    · simp
    · simp

/-- Claim C5: for an index inside the file, position yields the 1-based
line one plus the spec-side terminator count of the source up to the
index (terminators: newline, carriage return with the pair counted once,
U+2028, U+2029) and the 1-based column as the byte offset from the start
of the current line plus one, the line start being one past the last
terminator. -/
theorem thmC5 :
    ∀ (F : String) (src : List Nat) (base idx : Nat),
      base ≤ idx → idx - base ≤ src.length →
      (position (newParserBase F src base) idx).line =
        1 + specTermCount (src.take (idx - base)) ∧
      (position (newParserBase F src base) idx).column =
        (idx - base) - specLineStart (src.take (idx - base)) + 1 := by
  intro F src base idx hbase hlen
  rw [position]
  dsimp only [newParserBase]
  rw [lineCount_eq]
  have hstrlen : (src.take (idx - base)).length = idx - base := by
    rw [List.length_take]
    omega
  have hlt := lastUpd_lt (src.take (idx - base)).length (src.take (idx - base))
    (le_refl _) 0 (-1) (by norm_num)
  have hge := lastUpd_ge (src.take (idx - base)).length (src.take (idx - base))
    (le_refl _) 0 (-1) (by norm_num)
  have hsl := specLineStart_eq (src.take (idx - base))
  refine ⟨rfl, ?_⟩
  dsimp only
  by_cases h0 : (0 : Int) ≤ lastUpd (src.take (idx - base)) 0 (-1)
  · rw [if_pos h0]
    omega
  · rw [if_neg h0]
    omega

theorem wC5 :
    (position (newParserBase "a" [97, 10, 98] 1) 3).line =
      1 + specTermCount (([97, 10, 98] : List Nat).take (3 - 1)) ∧
    (position (newParserBase "a" [97, 10, 98] 1) 3).column =
      (3 - 1) - specLineStart (([97, 10, 98] : List Nat).take (3 - 1)) + 1 :=
  thmC5 "a" [97, 10, 98] 1 3 (by decide) (by decide)

end Otto
